import Mathlib

/-! The single-subscription binder of `widget/bind_helper.go`.

A shallow embedding of `basicBinder` with its three operations `SetCallback`,
`Bind` and `Unbind`, and of the listener closure that `Bind` creates.

* Go interface and function values that may be `nil` are `Option`s.
* The two `sync.RWMutex` fields are explicit lock states.  The embedding is
  sequential: an acquisition that would block for ever is the fault
  `Fault.deadlock`.
* Every lock operation, every store to a guarded field, every call on an
  observable and every invocation of the reaction is appended to a trace, in
  program order.
-/

namespace BindHelper

/-- Identity of an observable (a non-nil `binding.DataItem`). -/
abbrev ObsId := Nat

/-- Identity of a reaction function (a non-nil `func(binding.DataItem)`). -/
abbrev CallbackId := Nat

/-- A `binding.DataItem` interface value; `none` is the nil interface. -/
abbrev DataItem := Option ObsId

/-- A `func(binding.DataItem)` value; `none` is the nil function. -/
abbrev Callback := Option CallbackId

/-- A listener instance.  `bound id data` is the listener allocated by the
`id`-th call of `Bind`, whose closure captured `data`; `foreign id` is a
listener that somebody else registered on an observable. -/
inductive Listener where
  | foreign (id : Nat)
  | bound (id : Nat) (data : DataItem)
  deriving DecidableEq, Repr

/-- A `binding.DataListener` interface value; `none` is the nil interface. -/
abbrev DataListener := Option Listener

/-- The struct `annotatedListener`. -/
structure annotatedListener where
  data : DataItem
  listener : DataListener
  deriving DecidableEq, Repr

/-- The two mutexes of a `basicBinder`. -/
inductive Mutex where
  | callbackLock
  | dataListenerPairLock
  deriving DecidableEq, Repr

/-- What an operation does that is visible outside its own local variables. -/
inductive Event where
  | lock (m : Mutex)
  | unlock (m : Mutex)
  | rlock (m : Mutex)
  | runlock (m : Mutex)
  | storeCallback (f : Callback)
  | storePair (p : annotatedListener)
  | addListener (o : ObsId) (l : Listener)
  | removeListener (o : ObsId) (l : Listener)
  | call (f : CallbackId) (data : DataItem)
  deriving DecidableEq, Repr

/-- The ways an operation can fail to complete. -/
inductive Fault where
  | nilDereference
  | deadlock
  | unlockOfUnlocked
  deriving DecidableEq, Repr

/-- State of a `sync.RWMutex`: whether a writer holds it, and how many
readers do. -/
structure RWMutex where
  writer : Bool
  readers : Nat
  deriving DecidableEq, Repr

/-- The zero value of `sync.RWMutex`: nobody holds it. -/
def RWMutex.free : RWMutex := ⟨false, 0⟩

/-- The method `Lock`: it blocks while a writer or a reader holds the mutex. -/
def RWMutex.Lock (m : RWMutex) : Except Fault RWMutex :=
  if m.writer = false ∧ m.readers = 0 then .ok { m with writer := true }
  else .error .deadlock

/-- The method `Unlock`: on a mutex that is not locked for writing it is a fatal error. -/
def RWMutex.Unlock (m : RWMutex) : Except Fault RWMutex :=
  if m.writer = true then .ok { m with writer := false }
  else .error .unlockOfUnlocked

/-- The method `RLock`: it blocks while a writer holds the mutex. -/
def RWMutex.RLock (m : RWMutex) : Except Fault RWMutex :=
  if m.writer = false then .ok { m with readers := m.readers + 1 }
  else .error .deadlock

/-- The method `RUnlock`: on a mutex that no reader holds it is a fatal error. -/
def RWMutex.RUnlock (m : RWMutex) : Except Fault RWMutex :=
  if 0 < m.readers then .ok { m with readers := m.readers - 1 }
  else .error .unlockOfUnlocked

/-- The struct `basicBinder`. -/
structure basicBinder where
  callbackLock : RWMutex
  callback : Callback
  dataListenerPairLock : RWMutex
  dataListenerPair : annotatedListener
  deriving DecidableEq, Repr

/-- The zero value of `basicBinder`: what a freshly created binder holds. -/
def basicBinder.zero : basicBinder :=
  ⟨RWMutex.free, none, RWMutex.free, ⟨none, none⟩⟩

/-- The binder together with the part of the heap it acts on. -/
structure World where
  /-- The binder. -/
  binder : basicBinder
  /-- The listener collections of all observables: `(o, l)` is in the list
  when listener `l` is registered on observable `o`, oldest first. -/
  registered : List (ObsId × Listener)
  /-- Number of listeners `Bind` has allocated so far. -/
  nextListener : Nat
  /-- The events so far, oldest first. -/
  trace : List Event
  deriving DecidableEq, Repr

/-- Append one event to the trace. -/
def emit (e : Event) (w : World) : World :=
  { w with trace := w.trace ++ [e] }

/-- Read a mutex field of the binder. -/
def getMutex (m : Mutex) (b : basicBinder) : RWMutex :=
  match m with
  | .callbackLock => b.callbackLock
  | .dataListenerPairLock => b.dataListenerPairLock

/-- Write a mutex field of the binder. -/
def setMutex (m : Mutex) (s : RWMutex) (b : basicBinder) : basicBinder :=
  match m with
  | .callbackLock => { b with callbackLock := s }
  | .dataListenerPairLock => { b with dataListenerPairLock := s }

/-- The call `binder.<m>.Lock()`. -/
def Lock (m : Mutex) (w : World) : Except Fault World :=
  match (getMutex m w.binder).Lock with
  | .ok s => .ok (emit (.lock m) { w with binder := setMutex m s w.binder })
  | .error e => .error e

/-- The call `binder.<m>.Unlock()`. -/
def Unlock (m : Mutex) (w : World) : Except Fault World :=
  match (getMutex m w.binder).Unlock with
  | .ok s => .ok (emit (.unlock m) { w with binder := setMutex m s w.binder })
  | .error e => .error e

/-- The call `binder.<m>.RLock()`. -/
def RLock (m : Mutex) (w : World) : Except Fault World :=
  match (getMutex m w.binder).RLock with
  | .ok s => .ok (emit (.rlock m) { w with binder := setMutex m s w.binder })
  | .error e => .error e

/-- The call `binder.<m>.RUnlock()`. -/
def RUnlock (m : Mutex) (w : World) : Except Fault World :=
  match (getMutex m w.binder).RUnlock with
  | .ok s => .ok (emit (.runlock m) { w with binder := setMutex m s w.binder })
  | .error e => .error e

/-- The assignment `binder.callback = f`. -/
def storeCallback (f : Callback) (w : World) : World :=
  emit (.storeCallback f) { w with binder := { w.binder with callback := f } }

/-- The assignment `binder.dataListenerPair = p`. -/
def storePair (p : annotatedListener) (w : World) : World :=
  emit (.storePair p) { w with binder := { w.binder with dataListenerPair := p } }

/-- Modelled from the spec: the method `AddListener` of `binding.DataItem`,
whose implementation is outside the two source files.  The observable is a
collection of listeners and registration adds the listener to it.  A method
call on the nil interface value is a run-time panic. -/
def AddListener (data : DataItem) (l : Listener) (w : World) : Except Fault World :=
  match data with
  | none => .error .nilDereference
  | some o => .ok (emit (.addListener o l) { w with registered := w.registered ++ [(o, l)] })

/-- Modelled from the spec: the method `RemoveListener` of `binding.DataItem`,
whose implementation is outside the two source files.  Removal targets the
exact listener instance, on this observable only. -/
def RemoveListener (data : DataItem) (l : Listener) (w : World) : Except Fault World :=
  match data with
  | none => .error .nilDereference
  | some o =>
    .ok (emit (.removeListener o l)
      { w with registered := w.registered.filter (fun r => decide (r ≠ (o, l))) })

/-- The method `SetCallback` of `basicBinder`. -/
def SetCallback (f : Callback) (w : World) : Except Fault World := do
  let w ← Lock .callbackLock w
  let w := storeCallback f w
  Unlock .callbackLock w

/-- The method `unbindLocked` of `basicBinder`. -/
def unbindLocked (w : World) : Except Fault World :=
  let previousListener := w.binder.dataListenerPair
  let w := storePair ⟨none, none⟩ w
  match previousListener.listener, previousListener.data with
  | none, _ => .ok w
  | some _, none => .ok w
  | some l, some o => RemoveListener (some o) l w

/-- The method `Bind` of `basicBinder`.  `binding.NewDataListener` allocates a listener
that is distinct from every listener allocated before. -/
def Bind (data : DataItem) (w : World) : Except Fault World := do
  let listener := Listener.bound w.nextListener data
  let w := { w with nextListener := w.nextListener + 1 }
  let w ← AddListener data listener w
  let listenerInfo : annotatedListener := ⟨data, some listener⟩
  let w ← Lock .dataListenerPairLock w
  let w ← unbindLocked w
  let w := storePair listenerInfo w
  Unlock .dataListenerPairLock w

/-- The method `Unbind` of `basicBinder`. -/
def Unbind (w : World) : Except Fault World := do
  let w ← Lock .dataListenerPairLock w
  let w ← unbindLocked w
  Unlock .dataListenerPairLock w

/-- The closure that `Bind` passes to `binding.NewDataListener`, with `data`
as captured.  `invoke f data` is what the Go call `f(data)` does. -/
def listenerClosure (invoke : CallbackId → DataItem → World → Except Fault World)
    (data : DataItem) (w : World) : Except Fault World := do
  let w ← RLock .callbackLock w
  let f := w.binder.callback
  let w ← RUnlock .callbackLock w
  match f with
  | none => .ok w
  | some f => invoke f data w

/-- The observable notifies listener `l`.  What a foreign listener does is
not the binder's business. -/
def DataChanged (invoke : CallbackId → DataItem → World → Except Fault World)
    (l : Listener) (w : World) : Except Fault World :=
  match l with
  | .foreign _ => .ok w
  | .bound _ data => listenerClosure invoke data w

/-- The listeners registered on observable `o`, oldest first. -/
def listenersOf (w : World) (o : ObsId) : List Listener :=
  (w.registered.filter (fun r => decide (r.1 = o))).map Prod.snd

/-- Notify the listeners of the list one after another. -/
def notifyAll (invoke : CallbackId → DataItem → World → Except Fault World) :
    List Listener → World → Except Fault World
  | [], w => .ok w
  | l :: ls, w =>
    match DataChanged invoke l w with
    | .ok w1 => notifyAll invoke ls w1
    | .error e => .error e

/-- Modelled from the spec: the firing of observable `o`, which is outside
the two source files: every listener registered on `o` at that moment is
notified. -/
def fire (invoke : CallbackId → DataItem → World → Except Fault World)
    (o : ObsId) (w : World) : Except Fault World :=
  notifyAll invoke (listenersOf w o) w

/-- A reaction whose own effects are not looked at: the call is recorded. -/
def recordCall (f : CallbackId) (data : DataItem) (w : World) : Except Fault World :=
  .ok (emit (.call f data) w)

/-- One call of an operation of the binder. -/
inductive Op where
  | SetCallback (f : Callback)
  | Bind (data : DataItem)
  | Unbind
  deriving DecidableEq, Repr

/-- Perform one call. -/
def Op.apply : Op → World → Except Fault World
  | .SetCallback f, w => BindHelper.SetCallback f w
  | .Bind data, w => BindHelper.Bind data w
  | .Unbind, w => BindHelper.Unbind w

/-- Perform the calls one after another; a fault ends the run. -/
def run : List Op → World → Except Fault World
  | [], w => .ok w
  | op :: ops, w =>
    match op.apply w with
    | .ok w1 => run ops w1
    | .error e => .error e

/-- A reaction that calls back into the binder: it is recorded, then performs
the calls `body f`. -/
def reentrantCall (body : CallbackId → List Op) (f : CallbackId) (data : DataItem)
    (w : World) : Except Fault World :=
  run (body f) (emit (.call f data) w)

/-- A freshly created binder, in a heap where the listeners `regs` of other
parties are registered. -/
def fresh (regs : List (ObsId × Nat)) : World :=
  { binder := basicBinder.zero
    registered := regs.map (fun r => (r.1, Listener.foreign r.2))
    nextListener := 0
    trace := [] }

/-- Whether the listener was created by the binder. -/
def Listener.isBound : Listener → Bool
  | .foreign _ => false
  | .bound _ _ => true

/-- The registrations of listeners created by the binder. -/
def binderRegistrations (w : World) : List (ObsId × Listener) :=
  w.registered.filter (fun r => r.2.isBound)

/-- The calls on observables in a trace. -/
def observableCalls (tr : List Event) : List Event :=
  tr.filter (fun e => match e with
    | .addListener _ _ => true
    | .removeListener _ _ => true
    | _ => false)

/-- The `RemoveListener` calls in a trace. -/
def removeCalls (tr : List Event) : List Event :=
  tr.filter (fun e => match e with
    | .removeListener _ _ => true
    | _ => false)

/-- The invocations of the reaction in a trace. -/
def reactionCalls (tr : List Event) : List Event :=
  tr.filter (fun e => match e with
    | .call _ _ => true
    | _ => false)

/-- Neither mutex of the binder is held. -/
def LocksFree (w : World) : Prop :=
  w.binder.callbackLock = RWMutex.free ∧ w.binder.dataListenerPairLock = RWMutex.free

instance (w : World) : Decidable (LocksFree w) := by
  unfold LocksFree; infer_instance

/-- The registrations that are left of `regs` once the pair `p` has been
deregistered by `unbindLocked`. -/
def afterUnbind (p : annotatedListener) (regs : List (ObsId × Listener)) :
    List (ObsId × Listener) :=
  match p.listener, p.data with
  | some l, some o => regs.filter (fun r => decide (r ≠ (o, l)))
  | _, _ => regs

/-- The calls on observables that `unbindLocked` makes when the pair is `p`. -/
def unbindCalls (p : annotatedListener) : List Event :=
  match p.listener, p.data with
  | some l, some o => [.removeListener o l]
  | _, _ => []

/-- The registrations that the active pair `p` stands for. -/
def pairRegistrations (p : annotatedListener) : List (ObsId × Listener) :=
  match p.listener, p.data with
  | some l, some o => [(o, l)]
  | _, _ => []

/-- What holds of the binder and the observables between two calls: no mutex
is held, the registered listeners of the binder are exactly what the active
pair stands for, and the active pair is either empty or an observable with a
listener that `Bind` allocated for it. -/
def Inv (w : World) : Prop :=
  LocksFree w ∧
  binderRegistrations w = pairRegistrations w.binder.dataListenerPair ∧
  (w.binder.dataListenerPair = ⟨none, none⟩ ∨
    ∃ o id, id < w.nextListener ∧
      w.binder.dataListenerPair = ⟨some o, some (.bound id (some o))⟩)

/-- The events of one run of the listener closure that captured `data`, when
the stored callback is `cb` and the reaction is only recorded. -/
def closureEvents (cb : Callback) (data : DataItem) : List Event :=
  [.rlock .callbackLock, .runlock .callbackLock] ++
    match cb with
    | some f => [.call f data]
    | none => []

/-- The events of notifying listener `l`, when the stored callback is `cb`
and the reaction is only recorded. -/
def notifyEvents (cb : Callback) : Listener → List Event
  | .foreign _ => []
  | .bound _ data => closureEvents cb data

/-- The events of notifying the listeners of the list one after another. -/
def notifyAllEvents (cb : Callback) : List Listener → List Event
  | [] => []
  | l :: ls => notifyEvents cb l ++ notifyAllEvents cb ls

/-- Replays a trace and tells whether every `AddListener` and every
`RemoveListener` call in it is made while `dataListenerPairLock` is held;
`held` says whether the lock is held at the start. -/
def callsUnderPairLock : Bool → List Event → Bool
  | _, [] => true
  | _, .lock .dataListenerPairLock :: tr => callsUnderPairLock true tr
  | _, .unlock .dataListenerPairLock :: tr => callsUnderPairLock false tr
  | held, .addListener _ _ :: tr => held && callsUnderPairLock held tr
  | held, .removeListener _ _ :: tr => held && callsUnderPairLock held tr
  | held, _ :: tr => callsUnderPairLock held tr

/-- Replays a trace and tells whether every `RemoveListener` call in it is
made while `dataListenerPairLock` is held. -/
def removesUnderPairLock : Bool → List Event → Bool
  | _, [] => true
  | _, .lock .dataListenerPairLock :: tr => removesUnderPairLock true tr
  | _, .unlock .dataListenerPairLock :: tr => removesUnderPairLock false tr
  | held, .removeListener _ _ :: tr => held && removesUnderPairLock held tr
  | held, _ :: tr => removesUnderPairLock held tr

/-- No call of the list is `Bind` of the nil `DataItem`. -/
def NoNilBind (ops : List Op) : Prop :=
  ∀ op ∈ ops, op ≠ Op.Bind none

instance (ops : List Op) : Decidable (NoNilBind ops) := by
  unfold NoNilBind; infer_instance

end BindHelper

/-! The mock command runner of
`cmd/fyne/internal/commands/mock_runner_test.go`.

A shallow embedding of `testCommandCall` with `runOutput`, `setDir`, `setEnv`
and `verifyExpectation`.

* The field `index` is a signed integer, as `int` is.  The index expression
  `calls[index]` panics when `index` is negative or not below `len(calls)`.
  Where `index++` is reached, `index < len(calls)`, and a length is an `int`,
  so the increment does not overflow.
* The field `t` stands for the `*testing.T`: it is the number of assertion
  failures recorded so far.  The functions of `assert` record a failure and
  return; they do not stop the test.
* An index out of range and a failed type assertion are panics, the `error`
  results of `Except`.
* The stored slice `env` carries the spare capacity of its backing array,
  because `append` writes into it when there is room.  No two slices of the
  mock share a backing array.
-/

namespace MockRunner

/-- A value of the empty interface held by the field `dir`: nil, a string, or
a value of some other dynamic type. -/
inductive Dir where
  | nil
  | str (s : String)
  | other (tag : Nat)
  deriving DecidableEq, Repr

/-- A stored value of type `[]string`: its elements, and for how many more
elements its backing array has room (capacity minus length). -/
structure StringSlice where
  elems : List String
  spare : Nat
  deriving DecidableEq, Repr

/-- The struct `mockExpectedValue`. -/
structure mockExpectedValue where
  dir : Dir
  env : StringSlice
  osEnv : Bool
  args : List String
  deriving DecidableEq, Repr

/-- The struct `mockReturnedValue`; `ret` is a byte slice and `err` an
`error`, nil or an error with its message. -/
structure mockReturnedValue where
  ret : List Nat
  err : Option String
  deriving DecidableEq, Repr

/-- The struct `mockExpectedCall`. -/
structure mockExpectedCall where
  dirSet : Bool
  envSet : Bool
  deriving DecidableEq, Repr

/-- The struct `mockRunOutputValue`, which embeds the three structs above. -/
structure mockRunOutputValue extends mockExpectedValue, mockReturnedValue, mockExpectedCall
  deriving DecidableEq, Repr

/-- The struct `testCommandCall`. -/
structure testCommandCall where
  calls : List mockRunOutputValue
  index : Int
  t : Nat
  deriving DecidableEq, Repr

/-- The run-time panics of the mock. -/
inductive Panic where
  | indexOutOfRange
  | typeAssertion
  deriving DecidableEq, Repr

/-- The index expression `calls[index]` with an `int` index: there is no
element, and the expression panics, when `index` is negative or not below
the length. -/
def callAt (calls : List mockRunOutputValue) (index : Int) : Option mockRunOutputValue :=
  if 0 ≤ index then calls[index.toNat]? else none

/-- The function `assert.Less` on two ints: a failure is recorded unless
`e1 < e2`. -/
def assertLess (t : Nat) (e1 e2 : Int) : Nat :=
  if e1 < e2 then t else t + 1

/-- The function `assert.Equal`: a failure is recorded unless the two values
are equal. -/
def assertEqual {α : Type} [DecidableEq α] (t : Nat) (expected actual : α) : Nat :=
  if expected = actual then t else t + 1

/-- The function `sort.Strings`: the strings in increasing order. -/
def sortStrings (l : List String) : List String :=
  List.insertionSort (fun a b : String => a ≤ b) l

/-- The loop `for index, value := range actual` with the body
`assert.Equal(t.t, expected[index], value)`, from position `index` on; the
index of a `range` loop is never negative. -/
def assertEachEqual (expected : List String) : Nat → List String → Nat → Except Panic Nat
  | _, [], t => .ok t
  | index, value :: rest, t =>
    match expected[index]? with
    | none => .error .indexOutOfRange
    | some e => assertEachEqual expected (index + 1) rest (assertEqual t e value)

/-- The method `runOutput`: the returned pair `(ret, err)` and the state
afterwards. -/
def runOutput (t : testCommandCall) (args : List String) :
    Except Panic ((List Nat × Option String) × testCommandCall) :=
  let t1 := assertLess t.t t.index t.calls.length
  match callAt t.calls t.index with
  | none => .error .indexOutOfRange
  | some call =>
    let t2 := assertEqual t1 call.args.length args.length
    let checked :=
      if call.args.length = args.length then assertEachEqual call.args 0 args t2
      else .ok t2
    match checked with
    | .error p => .error p
    | .ok t3 => .ok ((call.ret, call.err), { t with t := t3, index := t.index + 1 })

/-- The method `setDir`. -/
def setDir (t : testCommandCall) (dir : String) : Except Panic testCommandCall :=
  let t1 := assertLess t.t t.index t.calls.length
  match callAt t.calls t.index with
  | none => .error .indexOutOfRange
  | some call =>
    match call.dir with
    | .str s =>
      let t2 := assertEqual t1 s dir
      .ok { t with
        t := t2
        calls := t.calls.set t.index.toNat { call with dirSet := true } }
    | _ => .error .typeAssertion

/-- The method `setEnv`; `environ` is what `os.Environ()` returns.
When `osEnv` is false `expectedEnv` is the stored slice itself.  When it is
true, `append` writes `environ` into the backing array of the stored slice if
the spare capacity has room for it, and copies to a new array if not.  Then
`sort.Strings(expectedEnv)` sorts in place: unless `append` copied, the stored
slice, which keeps its length, now shows the first elements of the sorted
`expectedEnv`.  The slice `env` of the caller is sorted in place as well. -/
def setEnv (environ : List String) (t : testCommandCall) (env : List String) :
    Except Panic testCommandCall :=
  let t1 := assertLess t.t t.index t.calls.length
  match callAt t.calls t.index with
  | none => .error .indexOutOfRange
  | some call =>
    let inPlace : Bool := !call.osEnv || decide (environ.length ≤ call.env.spare)
    let expectedEnv := if call.osEnv then call.env.elems ++ environ else call.env.elems
    let expectedEnv := sortStrings expectedEnv
    let env := sortStrings env
    let t2 := assertEqual t1 expectedEnv.length env.length
    let checked :=
      if expectedEnv.length = env.length then assertEachEqual expectedEnv 0 env t2
      else .ok t2
    match checked with
    | .error p => .error p
    | .ok t3 =>
      .ok { t with
        t := t3
        calls := t.calls.set t.index.toNat
          { call with
            env :=
              { elems :=
                  if inPlace then expectedEnv.take call.env.elems.length
                  else call.env.elems
                spare := call.env.spare }
            envSet := true } }

/-- The body of the loop of `verifyExpectation` for one expected call. -/
def verifyCall (t : Nat) (value : mockRunOutputValue) : Nat :=
  let t1 := if value.dir ≠ Dir.nil then assertEqual t true value.dirSet else t
  if value.env.elems.length > 0 then assertEqual t1 true value.envSet else t1

/-- The method `verifyExpectation`. -/
def verifyExpectation (t : testCommandCall) : testCommandCall :=
  let t1 := assertEqual t.t (t.calls.length : Int) t.index
  { t with t := t.calls.foldl verifyCall t1 }

/-- Invoke `runOutput` once for each argument list, in order: the returned
pairs, in order, and the state afterwards. -/
def replay : testCommandCall → List (List String) →
    Except Panic (List (List Nat × Option String) × testCommandCall)
  | t, [] => .ok ([], t)
  | t, args :: rest =>
    match runOutput t args with
    | .error p => .error p
    | .ok (r, t1) =>
      match replay t1 rest with
      | .error p => .error p
      | .ok (rs, t2) => .ok (r :: rs, t2)

/-- A sample list of two expected calls: `git status` run in `/src` with the
environment `B=2`, `A=1`, then `go build`. -/
def sampleCalls : List mockRunOutputValue :=
  [ { dir := .str "/src", env := ⟨["B=2", "A=1"], 0⟩, osEnv := false,
      args := ["git", "status"], ret := [111, 107], err := none,
      dirSet := false, envSet := false },
    { dir := .nil, env := ⟨[], 0⟩, osEnv := true, args := ["go", "build"],
      ret := [], err := some "exit status 1", dirSet := false, envSet := false } ]

/-- A sample mock at its start: the two expected calls, none made yet, no
failure recorded. -/
def sampleMock : testCommandCall :=
  { calls := sampleCalls, index := 0, t := 0 }

/-- A sample mock whose expected call stores the environment `Z=1`, `Y=2` in
a backing array with room for six more strings, and adds the process
environment. -/
def spareMock : testCommandCall :=
  { calls := [ { dir := .nil, env := ⟨["Z=1", "Y=2"], 6⟩, osEnv := true, args := [],
                 ret := [], err := none, dirSet := false, envSet := false } ]
    index := 0
    t := 0 }

/-- The sample mock with `index` set to -1. -/
def negativeMock : testCommandCall :=
  { calls := sampleCalls, index := -1, t := 0 }

/-- The environment that `setEnv` expects for the expected call `call`. -/
def expectedEnvOf (environ : List String) (call : mockRunOutputValue) : List String :=
  if call.osEnv then call.env.elems ++ environ else call.env.elems

/-- The stored environment of the expected call `call` after `setEnv`. -/
def storedEnvOf (environ : List String) (call : mockRunOutputValue) : StringSlice :=
  { elems :=
      if (!call.osEnv || decide (environ.length ≤ call.env.spare)) = true then
        (sortStrings (expectedEnvOf environ call)).take call.env.elems.length
      else call.env.elems
    spare := call.env.spare }

end MockRunner

namespace BindHelper

/-! ## What each operation does, step by step -/

theorem SetCallback_eq (f : Callback) (w : World)
    (h : w.binder.callbackLock = RWMutex.free) :
    SetCallback f w = .ok
      { w with
        binder := { w.binder with callback := f }
        trace := w.trace ++ [.lock .callbackLock, .storeCallback f, .unlock .callbackLock] } := by
  obtain ⟨⟨cl, cb, pl, p⟩, reg, n, tr⟩ := w
  simp only at h
  subst h
  simp [SetCallback, Lock, Unlock, storeCallback, emit, getMutex, setMutex, RWMutex.Lock,
    RWMutex.Unlock, RWMutex.free, bind, Except.bind]

theorem Unbind_eq (w : World) (h : w.binder.dataListenerPairLock = RWMutex.free) :
    Unbind w = .ok
      { w with
        binder := { w.binder with dataListenerPair := ⟨none, none⟩ }
        registered := afterUnbind w.binder.dataListenerPair w.registered
        trace := w.trace ++ [.lock .dataListenerPairLock, .storePair ⟨none, none⟩]
          ++ unbindCalls w.binder.dataListenerPair ++ [.unlock .dataListenerPairLock] } := by
  obtain ⟨⟨cl, cb, pl, ⟨d, l⟩⟩, reg, n, tr⟩ := w
  simp only at h
  subst h
  cases l <;> cases d <;>
    simp [Unbind, unbindLocked, RemoveListener, Lock, Unlock, storePair, emit, getMutex,
      setMutex, RWMutex.Lock, RWMutex.Unlock, RWMutex.free, bind, Except.bind, afterUnbind,
      unbindCalls]

theorem Bind_eq (o : ObsId) (w : World) (h : w.binder.dataListenerPairLock = RWMutex.free) :
    Bind (some o) w = .ok
      { binder := { w.binder with
          dataListenerPair := ⟨some o, some (.bound w.nextListener (some o))⟩ }
        registered := afterUnbind w.binder.dataListenerPair
          (w.registered ++ [(o, .bound w.nextListener (some o))])
        nextListener := w.nextListener + 1
        trace := w.trace ++ [.addListener o (.bound w.nextListener (some o)),
            .lock .dataListenerPairLock, .storePair ⟨none, none⟩]
          ++ unbindCalls w.binder.dataListenerPair
          ++ [.storePair ⟨some o, some (.bound w.nextListener (some o))⟩,
            .unlock .dataListenerPairLock] } := by
  obtain ⟨⟨cl, cb, pl, ⟨d, l⟩⟩, reg, n, tr⟩ := w
  simp only at h
  subst h
  cases l <;> cases d <;>
    simp [Bind, AddListener, unbindLocked, RemoveListener, Lock, Unlock, storePair, emit,
      getMutex, setMutex, RWMutex.Lock, RWMutex.Unlock, RWMutex.free, bind, Except.bind,
      afterUnbind, unbindCalls]

theorem Bind_nil (w : World) : Bind none w = .error .nilDereference := by
  simp [Bind, AddListener, bind, Except.bind]

/-! ## The invariant between calls -/

theorem binderRegistrations_afterUnbind (p : annotatedListener)
    (regs : List (ObsId × Listener)) :
    (afterUnbind p regs).filter (fun r => r.2.isBound)
      = afterUnbind p (regs.filter (fun r => r.2.isBound)) := by
  obtain ⟨d, l⟩ := p
  cases l <;> cases d <;> simp [afterUnbind, List.filter_filter, Bool.and_comm]

theorem afterUnbind_pairRegistrations (p : annotatedListener) :
    afterUnbind p (pairRegistrations p) = [] := by
  obtain ⟨d, l⟩ := p
  cases l <;> cases d <;> simp [afterUnbind, pairRegistrations]

theorem Inv_fresh (regs : List (ObsId × Nat)) : Inv (fresh regs) := by
  refine ⟨⟨rfl, rfl⟩, ?_, Or.inl rfl⟩
  simp [binderRegistrations, fresh, pairRegistrations, basicBinder.zero, Listener.isBound,
    List.filter_eq_nil_iff]
  rintro _ _ _ _ _ _ rfl
  rfl

theorem Inv_SetCallback (f : Callback) (w : World) (h : Inv w) :
    ∃ w1, SetCallback f w = .ok w1 ∧ Inv w1 := by
  obtain ⟨⟨hc, hp⟩, hreg, hpair⟩ := h
  refine ⟨_, SetCallback_eq f w hc, ⟨hc, hp⟩, hreg, hpair⟩

theorem Inv_Unbind (w : World) (h : Inv w) :
    ∃ w1, Unbind w = .ok w1 ∧ Inv w1 := by
  obtain ⟨⟨hc, hp⟩, hreg, _⟩ := h
  refine ⟨_, Unbind_eq w hp, ⟨hc, hp⟩, ?_, Or.inl rfl⟩
  show (afterUnbind _ w.registered).filter _ = _
  rw [binderRegistrations_afterUnbind]
  unfold binderRegistrations at hreg
  rw [hreg, afterUnbind_pairRegistrations]
  rfl

theorem Inv_Bind (o : ObsId) (w : World) (h : Inv w) :
    ∃ w1, Bind (some o) w = .ok w1 ∧ Inv w1 := by
  obtain ⟨⟨hc, hp⟩, hreg, hpair⟩ := h
  refine ⟨_, Bind_eq o w hp, ⟨hc, hp⟩, ?_, Or.inr ⟨o, w.nextListener, Nat.lt_succ_self _, rfl⟩⟩
  show (afterUnbind _ (w.registered ++ _)).filter _ = _
  rw [binderRegistrations_afterUnbind]
  unfold binderRegistrations at hreg
  rw [List.filter_append, hreg]
  rcases hpair with h0 | ⟨o1, id, hid, h1⟩
  · rw [h0]
    simp [afterUnbind, pairRegistrations, Listener.isBound]
  · rw [h1]
    have hne : id ≠ w.nextListener := Nat.ne_of_lt hid
    simp [afterUnbind, pairRegistrations, Listener.isBound]
    intro _ h2
    exact absurd h2.symm hne

theorem Inv_run (ops : List Op) (hops : NoNilBind ops) (w : World) (h : Inv w) :
    ∃ w1, run ops w = .ok w1 ∧ Inv w1 := by
  induction ops generalizing w with
  | nil => exact ⟨w, rfl, h⟩
  | cons op ops ih =>
    have hops1 : NoNilBind ops := fun x hx => hops x (List.mem_cons_of_mem _ hx)
    have hstep : ∃ w1, op.apply w = .ok w1 ∧ Inv w1 := by
      cases op with
      | SetCallback f => exact Inv_SetCallback f w h
      | Unbind => exact Inv_Unbind w h
      | Bind data =>
        cases data with
        | none => exact absurd rfl (hops _ (List.mem_cons_self _ _))
        | some o => exact Inv_Bind o w h
    obtain ⟨w1, h1, hinv1⟩ := hstep
    obtain ⟨w2, h2, hinv2⟩ := ih hops1 w1 hinv1
    exact ⟨w2, by simp [run, h1, h2], hinv2⟩

theorem run_ok_noNilBind (ops : List Op) (w w1 : World) (h : run ops w = .ok w1) :
    NoNilBind ops := by
  induction ops generalizing w with
  | nil => intro op hop; cases hop
  | cons op ops ih =>
    cases hstep : op.apply w with
    | error e => simp [run, hstep] at h
    | ok w2 =>
      simp only [run, hstep] at h
      intro x hx
      rcases List.mem_cons.mp hx with rfl | hx
      · intro hx0
        subst hx0
        simp [Op.apply, Bind_nil] at hstep
      · exact ih w2 h x hx

theorem Inv_reachable (regs : List (ObsId × Nat)) (ops : List Op) (w : World)
    (h : run ops (fresh regs) = .ok w) : Inv w := by
  obtain ⟨w1, h1, hinv⟩ := Inv_run ops (run_ok_noNilBind ops _ _ h) (fresh regs) (Inv_fresh regs)
  rw [h] at h1
  cases h1
  exact hinv

theorem pairRegistrations_length (p : annotatedListener) :
    (pairRegistrations p).length ≤ 1 := by
  obtain ⟨d, l⟩ := p
  cases l <;> cases d <;> simp [pairRegistrations]

theorem mem_pairRegistrations (p : annotatedListener) (o : ObsId) (l : Listener) :
    (o, l) ∈ pairRegistrations p ↔ p = ⟨some o, some l⟩ := by
  obtain ⟨d, l1⟩ := p
  cases l1 <;> cases d <;> simp [pairRegistrations]
  constructor
  · rintro ⟨rfl, rfl⟩
    exact ⟨rfl, rfl⟩
  · rintro ⟨rfl, rfl⟩
    exact ⟨rfl, rfl⟩

theorem listenersOf_bound (w : World) (o : ObsId) :
    (listenersOf w o).filter Listener.isBound
      = ((binderRegistrations w).filter (fun r => decide (r.1 = o))).map Prod.snd := by
  unfold listenersOf binderRegistrations
  rw [List.filter_map, List.filter_filter, List.filter_filter]
  congr 1
  apply List.filter_congr
  intro r _
  simp [Bool.and_comm]

/-! ## Firing -/

theorem listenerClosure_eq (invoke : CallbackId → DataItem → World → Except Fault World)
    (data : DataItem) (w : World) (h : w.binder.callbackLock.writer = false) :
    listenerClosure invoke data w =
      match w.binder.callback with
      | none => .ok { w with
          trace := w.trace ++ [.rlock .callbackLock, .runlock .callbackLock] }
      | some f => invoke f data { w with
          trace := w.trace ++ [.rlock .callbackLock, .runlock .callbackLock] } := by
  obtain ⟨⟨⟨cw, cr⟩, cb, pl, p⟩, reg, n, tr⟩ := w
  simp only at h
  subst h
  cases cb <;>
    simp [listenerClosure, RLock, RUnlock, emit, getMutex, setMutex, RWMutex.RLock,
      RWMutex.RUnlock, bind, Except.bind]

theorem DataChanged_record (l : Listener) (w : World)
    (h : w.binder.callbackLock.writer = false) :
    DataChanged recordCall l w
      = .ok { w with trace := w.trace ++ notifyEvents w.binder.callback l } := by
  cases l with
  | foreign id => simp [DataChanged, notifyEvents]
  | bound id data =>
    simp only [DataChanged, notifyEvents, closureEvents]
    rw [listenerClosure_eq _ _ _ h]
    cases hcb : w.binder.callback <;> simp [recordCall, emit]

theorem notifyAll_record (ls : List Listener) (w : World)
    (h : w.binder.callbackLock.writer = false) :
    notifyAll recordCall ls w
      = .ok { w with trace := w.trace ++ notifyAllEvents w.binder.callback ls } := by
  induction ls generalizing w with
  | nil => simp [notifyAll, notifyAllEvents]
  | cons l ls ih =>
    simp only [notifyAll, notifyAllEvents]
    rw [DataChanged_record l w h]
    have hrest := ih { w with trace := w.trace ++ notifyEvents w.binder.callback l } h
    simp only at hrest ⊢
    rw [hrest]
    simp

theorem notifyAllEvents_bound (cb : Callback) (ls : List Listener) :
    notifyAllEvents cb ls = notifyAllEvents cb (ls.filter Listener.isBound) := by
  induction ls with
  | nil => rfl
  | cons l ls ih =>
    cases l with
    | foreign id => simpa [notifyAllEvents, notifyEvents, Listener.isBound] using ih
    | bound id data => simp [notifyAllEvents, Listener.isBound, ih]

theorem fire_record (o : ObsId) (w : World) (h : Inv w) :
    fire recordCall o w = .ok { w with
      trace := w.trace ++ notifyAllEvents w.binder.callback
        (((pairRegistrations w.binder.dataListenerPair).filter
          (fun r => decide (r.1 = o))).map Prod.snd) } := by
  have hw : w.binder.callbackLock.writer = false := by rw [h.1.1]; rfl
  unfold fire
  rw [notifyAll_record _ _ hw, notifyAllEvents_bound, listenersOf_bound, h.2.1]

/-! ## Calls from within a reaction -/

theorem unbindLocked_eq (w : World) :
    unbindLocked w = .ok
      { w with
        binder := { w.binder with dataListenerPair := ⟨none, none⟩ }
        registered := afterUnbind w.binder.dataListenerPair w.registered
        trace := w.trace ++ .storePair ⟨none, none⟩ :: unbindCalls w.binder.dataListenerPair } := by
  obtain ⟨⟨cl, cb, pl, ⟨d, l⟩⟩, reg, n, tr⟩ := w
  cases l <;> cases d <;>
    simp [unbindLocked, RemoveListener, storePair, emit, afterUnbind, unbindCalls]

theorem apply_locksFree (op : Op) (w : World) (h : LocksFree w) :
    (∃ w1, op.apply w = .ok w1 ∧ LocksFree w1) ∨ op.apply w = .error .nilDereference := by
  cases op with
  | SetCallback f => exact Or.inl ⟨_, SetCallback_eq f w h.1, h⟩
  | Unbind => exact Or.inl ⟨_, Unbind_eq w h.2, h⟩
  | Bind data =>
    cases data with
    | none => exact Or.inr (Bind_nil w)
    | some o => exact Or.inl ⟨_, Bind_eq o w h.2, h⟩

theorem run_locksFree (ops : List Op) (w : World) (h : LocksFree w) :
    (∃ w1, run ops w = .ok w1 ∧ LocksFree w1) ∨ run ops w = .error .nilDereference := by
  induction ops generalizing w with
  | nil => exact Or.inl ⟨w, rfl, h⟩
  | cons op ops ih =>
    rcases apply_locksFree op w h with ⟨w1, h1, hf1⟩ | herr
    · rcases ih w1 hf1 with ⟨w2, h2, hf2⟩ | herr2
      · exact Or.inl ⟨w2, by simp [run, h1, h2], hf2⟩
      · exact Or.inr (by simp [run, h1, herr2])
    · exact Or.inr (by simp [run, herr])

theorem run_locksFree_ok (ops : List Op) (hops : NoNilBind ops) (w : World)
    (h : LocksFree w) : ∃ w1, run ops w = .ok w1 ∧ LocksFree w1 := by
  rcases run_locksFree ops w h with hok | herr
  · exact hok
  · exfalso
    induction ops generalizing w with
    | nil => simp [run] at herr
    | cons op ops ih =>
      have hops1 : NoNilBind ops := fun x hx => hops x (List.mem_cons_of_mem _ hx)
      rcases apply_locksFree op w h with ⟨w1, h1, hf1⟩ | herr1
      · simp only [run, h1] at herr
        exact ih hops1 w1 hf1 herr
      · cases op with
        | SetCallback f => simp [Op.apply, SetCallback_eq f w h.1] at herr1
        | Unbind => simp [Op.apply, Unbind_eq w h.2] at herr1
        | Bind data =>
          cases data with
          | none => exact hops _ (List.mem_cons_self _ _) rfl
          | some o => simp [Op.apply, Bind_eq o w h.2] at herr1

theorem DataChanged_reentrant (body : CallbackId → List Op) (l : Listener) (w : World)
    (h : LocksFree w) :
    (∃ w1, DataChanged (reentrantCall body) l w = .ok w1 ∧ LocksFree w1) ∨
      DataChanged (reentrantCall body) l w = .error .nilDereference := by
  cases l with
  | foreign id => exact Or.inl ⟨w, rfl, h⟩
  | bound id data =>
    have hw : w.binder.callbackLock.writer = false := by rw [h.1]; rfl
    simp only [DataChanged]
    rw [listenerClosure_eq _ _ _ hw]
    cases hcb : w.binder.callback with
    | none => exact Or.inl ⟨_, rfl, h⟩
    | some f => exact run_locksFree (body f) _ h

theorem DataChanged_reentrant_ok (body : CallbackId → List Op)
    (hbody : ∀ f, NoNilBind (body f)) (l : Listener) (w : World) (h : LocksFree w) :
    ∃ w1, DataChanged (reentrantCall body) l w = .ok w1 ∧ LocksFree w1 := by
  cases l with
  | foreign id => exact ⟨w, rfl, h⟩
  | bound id data =>
    have hw : w.binder.callbackLock.writer = false := by rw [h.1]; rfl
    simp only [DataChanged]
    rw [listenerClosure_eq _ _ _ hw]
    cases hcb : w.binder.callback with
    | none => exact ⟨_, rfl, h⟩
    | some f => exact run_locksFree_ok (body f) (hbody f) _ h

theorem notifyAll_reentrant (body : CallbackId → List Op) (ls : List Listener) (w : World)
    (h : LocksFree w) :
    (∃ w1, notifyAll (reentrantCall body) ls w = .ok w1 ∧ LocksFree w1) ∨
      notifyAll (reentrantCall body) ls w = .error .nilDereference := by
  induction ls generalizing w with
  | nil => exact Or.inl ⟨w, rfl, h⟩
  | cons l ls ih =>
    rcases DataChanged_reentrant body l w h with ⟨w1, h1, hf1⟩ | herr
    · rcases ih w1 hf1 with ⟨w2, h2, hf2⟩ | herr2
      · exact Or.inl ⟨w2, by simp [notifyAll, h1, h2], hf2⟩
      · exact Or.inr (by simp [notifyAll, h1, herr2])
    · exact Or.inr (by simp [notifyAll, herr])

theorem notifyAll_reentrant_ok (body : CallbackId → List Op)
    (hbody : ∀ f, NoNilBind (body f)) (ls : List Listener) (w : World) (h : LocksFree w) :
    ∃ w1, notifyAll (reentrantCall body) ls w = .ok w1 ∧ LocksFree w1 := by
  induction ls generalizing w with
  | nil => exact ⟨w, rfl, h⟩
  | cons l ls ih =>
    obtain ⟨w1, h1, hf1⟩ := DataChanged_reentrant_ok body hbody l w h
    obtain ⟨w2, h2, hf2⟩ := ih w1 hf1
    exact ⟨w2, by simp [notifyAll, h1, h2], hf2⟩

theorem SetCallback_blocks_reader (f : Callback) (w : World)
    (h : 0 < w.binder.callbackLock.readers) : SetCallback f w = .error .deadlock := by
  obtain ⟨⟨⟨cw, cr⟩, cb, pl, p⟩, reg, n, tr⟩ := w
  simp only at h
  have : cr ≠ 0 := Nat.pos_iff_ne_zero.mp h
  simp [SetCallback, Lock, getMutex, RWMutex.Lock, bind, Except.bind, this]

theorem Unbind_blocks_writer (w : World)
    (h : w.binder.dataListenerPairLock.writer = true) : Unbind w = .error .deadlock := by
  obtain ⟨⟨cl, cb, ⟨pw, pr⟩, p⟩, reg, n, tr⟩ := w
  simp only at h
  subst h
  simp [Unbind, Lock, getMutex, RWMutex.Lock, bind, Except.bind]

theorem Bind_blocks_writer (o : ObsId) (w : World)
    (h : w.binder.dataListenerPairLock.writer = true) :
    Bind (some o) w = .error .deadlock := by
  obtain ⟨⟨cl, cb, ⟨pw, pr⟩, p⟩, reg, n, tr⟩ := w
  simp only at h
  subst h
  simp [Bind, AddListener, emit, Lock, getMutex, RWMutex.Lock, bind, Except.bind]

/-! ## The claims -/

/-- C1, no leaked subscription.  Take any finite sequence `ops` of
`SetCallback`, `Bind` and `Unbind` calls, applied one after another to a
freshly created binder in a heap where other parties may have listeners
registered, and any `k`.  If none of the first `k` calls is `Bind(nil)`, they
all complete.  After the first `k` calls, once they have completed, at most
one listener created by the binder is registered on any observable, and a
listener created by the binder is registered on observable `o` exactly when
`dataListenerPair` records that listener together with `o`. -/
theorem no_leaked_subscription (regs : List (ObsId × Nat)) (ops : List Op) (k : Nat) :
    (NoNilBind (ops.take k) → ∃ w, run (ops.take k) (fresh regs) = .ok w) ∧
    ∀ w, run (ops.take k) (fresh regs) = .ok w →
      (binderRegistrations w).length ≤ 1 ∧
      ∀ o l, l.isBound = true →
        ((o, l) ∈ w.registered ↔ w.binder.dataListenerPair = ⟨some o, some l⟩) := by
  constructor
  · intro htake
    obtain ⟨w, hrun, _⟩ := Inv_run (ops.take k) htake (fresh regs) (Inv_fresh regs)
    exact ⟨w, hrun⟩
  · intro w hrun
    obtain ⟨_, hreg, _⟩ := Inv_reachable regs (ops.take k) w hrun
    constructor
    · rw [hreg]
      exact pairRegistrations_length _
    · intro o l hl
      rw [← mem_pairRegistrations, ← hreg]
      simp [binderRegistrations, hl]

/-- Witness of C1: the first three of four calls on a fresh binder, with a
foreign listener on observable 1. -/
theorem no_leaked_subscription_witness :
    ∃ w, run (List.take 3 [.SetCallback (some 7), .Bind (some 1), .Bind (some 2), .Unbind])
        (fresh [(1, 5)]) = .ok w ∧
      w.binder.dataListenerPair = ⟨some 2, some (.bound 1 (some 2))⟩ ∧
      (binderRegistrations w).length ≤ 1 ∧
      ∀ o l, l.isBound = true →
        ((o, l) ∈ w.registered ↔ w.binder.dataListenerPair = ⟨some o, some l⟩) :=
  ⟨_, rfl, rfl,
    (no_leaked_subscription [(1, 5)]
      [.SetCallback (some 7), .Bind (some 1), .Bind (some 2), .Unbind] 3).2 _ rfl⟩

/-- C2, `Bind(o1)` then `Bind(o2)` on a fresh binder, for all observables
`o1` and `o2`, equal or not.  Both calls complete.  `RemoveListener` has been
called exactly once in total, on `o1` and with the listener that the first
`Bind` registered.  Of the listeners created by the binder, `o2` holds
exactly one, the one that the second `Bind` created and registered, and when
`o1` and `o2` are distinct `o1` holds none. -/
theorem bind_twice (regs : List (ObsId × Nat)) (o1 o2 : ObsId) :
    ∃ w1 w2, Bind (some o1) (fresh regs) = .ok w1 ∧ Bind (some o2) w1 = .ok w2 ∧
      observableCalls w1.trace = [.addListener o1 (.bound 0 (some o1))] ∧
      observableCalls (w2.trace.drop w1.trace.length)
        = [.addListener o2 (.bound 1 (some o2)), .removeListener o1 (.bound 0 (some o1))] ∧
      removeCalls w2.trace = [.removeListener o1 (.bound 0 (some o1))] ∧
      (listenersOf w2 o2).filter Listener.isBound = [.bound 1 (some o2)] ∧
      (o1 ≠ o2 → (listenersOf w2 o1).filter Listener.isBound = []) := by
  have hinv0 := Inv_fresh regs
  obtain ⟨w1, h1, hinv1⟩ := Inv_Bind o1 _ hinv0
  obtain ⟨w2, h2, hinv2⟩ := Inv_Bind o2 _ hinv1
  have e1 := Bind_eq o1 (fresh regs) rfl
  rw [h1] at e1
  injection e1 with e1
  have e2 := Bind_eq o2 w1 hinv1.1.2
  rw [h2] at e2
  injection e2 with e2
  have hp1 : w1.binder.dataListenerPair = ⟨some o1, some (.bound 0 (some o1))⟩ := by
    rw [e1]; rfl
  have hn1 : w1.nextListener = 1 := by rw [e1]; rfl
  have ht1 : w1.trace = [.addListener o1 (.bound 0 (some o1)), .lock .dataListenerPairLock,
      .storePair ⟨none, none⟩, .storePair ⟨some o1, some (.bound 0 (some o1))⟩,
      .unlock .dataListenerPairLock] := by
    rw [e1]; rfl
  have hp2 : w2.binder.dataListenerPair = ⟨some o2, some (.bound 1 (some o2))⟩ := by
    rw [e2, hn1]
  have ht2 : w2.trace = w1.trace ++ [.addListener o2 (.bound 1 (some o2)),
      .lock .dataListenerPairLock, .storePair ⟨none, none⟩,
      .removeListener o1 (.bound 0 (some o1)),
      .storePair ⟨some o2, some (.bound 1 (some o2))⟩, .unlock .dataListenerPairLock] := by
    rw [e2, hn1, hp1]
    simp [unbindCalls]
  refine ⟨w1, w2, h1, h2, ?_, ?_, ?_, ?_, ?_⟩
  · rw [ht1]; rfl
  · rw [ht2, List.drop_left]; rfl
  · rw [ht2, ht1]; rfl
  · rw [listenersOf_bound, hinv2.2.1, hp2]
    simp [pairRegistrations]
  · intro hne
    rw [listenersOf_bound, hinv2.2.1, hp2]
    simp [pairRegistrations]
    exact fun h => hne h.symm

/-- C3, late binding.  Let `w` be any state the binder can reach and `o` any
observable.  `Bind(o)` completes and registers a listener `l` on `o`.  Firing
`l` in any later state `w2` (no writer holds `callbackLock` there) invokes the
callback that is stored in `w2`, once and with `o`, and invokes nothing when
that callback is nil; with its lock operations these are all its events.  So
right after `SetCallback(f)` the firing invokes `f`, whatever was stored when
`Bind` ran.  In particular after `SetCallback(f1)`, `Bind(o)`,
`SetCallback(f2)` on a fresh binder, firing `o` invokes `f2` with `o`, once,
and invokes nothing else, so `f1` is invoked only if it is `f2`. -/
theorem late_binding (regs : List (ObsId × Nat)) (ops : List Op) (w : World)
    (hw : run ops (fresh regs) = .ok w) (o : ObsId) :
    (∃ w1 l, Bind (some o) w = .ok w1 ∧
      w1.binder.dataListenerPair = ⟨some o, some l⟩ ∧ (o, l) ∈ w1.registered ∧
      (∀ w2 : World, w2.binder.callbackLock.writer = false →
        DataChanged recordCall l w2 = .ok { w2 with
          trace := w2.trace ++ [.rlock .callbackLock, .runlock .callbackLock] ++
            match w2.binder.callback with
            | some f => [.call f (some o)]
            | none => [] }) ∧
      (∀ (w2 : World) (f : Callback), w2.binder.callbackLock = RWMutex.free →
        ∃ w3 w4, SetCallback f w2 = .ok w3 ∧ DataChanged recordCall l w3 = .ok w4 ∧
          reactionCalls (w4.trace.drop w3.trace.length) =
            match f with
            | some g => [.call g (some o)]
            | none => [])) ∧
    (∀ f1 f2 : CallbackId, ∃ w3 w4,
      run [.SetCallback (some f1), .Bind (some o), .SetCallback (some f2)] (fresh regs)
        = .ok w3 ∧
      fire recordCall o w3 = .ok w4 ∧
      reactionCalls w4.trace = [.call f2 (some o)] ∧
      (f1 ≠ f2 → ∀ d, Event.call f1 d ∉ w4.trace)) := by
  have hinv := Inv_reachable regs ops w hw
  constructor
  · obtain ⟨w1, h1, hinv1⟩ := Inv_Bind o w hinv
    have e1 := Bind_eq o w hinv.1.2
    rw [h1] at e1
    injection e1 with e1
    have hp1 : w1.binder.dataListenerPair
        = ⟨some o, some (.bound w.nextListener (some o))⟩ := by
      rw [e1]
    refine ⟨w1, .bound w.nextListener (some o), h1, hp1, ?_, ?_, ?_⟩
    · have hmem : (o, Listener.bound w.nextListener (some o)) ∈ binderRegistrations w1 := by
        rw [hinv1.2.1, hp1]
        simp [pairRegistrations]
      exact (List.mem_filter.mp hmem).1
    · intro w2 h2
      rw [DataChanged_record _ _ h2]
      simp [notifyEvents, closureEvents]
    · intro w2 f h2
      refine ⟨_, _, SetCallback_eq f w2 h2, DataChanged_record _ _ (by rw [h2]; rfl), ?_⟩
      cases f <;> simp [notifyEvents, closureEvents, reactionCalls]
  · intro f1 f2
    have hrun : run [.SetCallback (some f1), .Bind (some o), .SetCallback (some f2)] (fresh regs)
        = .ok { binder := ⟨RWMutex.free, some f2, RWMutex.free,
                  ⟨some o, some (.bound 0 (some o))⟩⟩
                registered := regs.map (fun r => (r.1, Listener.foreign r.2))
                  ++ [(o, .bound 0 (some o))]
                nextListener := 1
                trace := [.lock .callbackLock, .storeCallback (some f1), .unlock .callbackLock,
                  .addListener o (.bound 0 (some o)), .lock .dataListenerPairLock,
                  .storePair ⟨none, none⟩, .storePair ⟨some o, some (.bound 0 (some o))⟩,
                  .unlock .dataListenerPairLock,
                  .lock .callbackLock, .storeCallback (some f2), .unlock .callbackLock] } := by
      rfl
    have hinv3 := Inv_reachable regs _ _ hrun
    refine ⟨_, _, hrun, fire_record o _ hinv3, ?_, ?_⟩
    · simp [pairRegistrations, notifyAllEvents, notifyEvents, closureEvents, reactionCalls]
    · intro hne d
      simp [pairRegistrations, notifyAllEvents, notifyEvents, closureEvents]
      intro h
      exact absurd h hne

/-- Witness of C3: the binder state after `SetCallback(7)`, observable 1. -/
theorem late_binding_witness :
    ∃ w, run [.SetCallback (some 7), .Bind (some 2)] (fresh [(1, 5)]) = .ok w ∧
    ∃ w1 l, Bind (some 1) w = .ok w1 ∧
      w1.binder.dataListenerPair = ⟨some 1, some l⟩ ∧ (1, l) ∈ w1.registered ∧
      (∀ w2 : World, w2.binder.callbackLock.writer = false →
        DataChanged recordCall l w2 = .ok { w2 with
          trace := w2.trace ++ [.rlock .callbackLock, .runlock .callbackLock] ++
            match w2.binder.callback with
            | some f => [.call f (some 1)]
            | none => [] }) ∧
      (∀ (w2 : World) (f : Callback), w2.binder.callbackLock = RWMutex.free →
        ∃ w3 w4, SetCallback f w2 = .ok w3 ∧ DataChanged recordCall l w3 = .ok w4 ∧
          reactionCalls (w4.trace.drop w3.trace.length) =
            match f with
            | some g => [.call g (some 1)]
            | none => []) :=
  ⟨_, rfl, (late_binding [(1, 5)] [.SetCallback (some 7), .Bind (some 2)] _ rfl 1).1⟩

/-- C4, `Bind(o)` then `Unbind()`, from any state the binder can reach, so
with any stored callback.  Both calls complete.  Afterwards the active pair
is empty, no listener created by the binder is registered on `o` (or on any
observable), and firing `o`, which notifies every listener still registered
on `o`, completes with no event of the binder at all: no reaction is
invoked. -/
theorem bind_unbind_silent (regs : List (ObsId × Nat)) (ops : List Op) (w : World)
    (hw : run ops (fresh regs) = .ok w) (o : ObsId) :
    ∃ w1 w2 w3, Bind (some o) w = .ok w1 ∧ Unbind w1 = .ok w2 ∧
      w2.binder.dataListenerPair = ⟨none, none⟩ ∧
      (∀ l, l.isBound = true → (o, l) ∉ w2.registered) ∧
      binderRegistrations w2 = [] ∧
      fire recordCall o w2 = .ok w3 ∧
      w3.trace = w2.trace ∧
      reactionCalls w3.trace = reactionCalls w2.trace := by
  have hinv := Inv_reachable regs ops w hw
  obtain ⟨w1, h1, hinv1⟩ := Inv_Bind o w hinv
  obtain ⟨w2, h2, hinv2⟩ := Inv_Unbind w1 hinv1
  have e2 := Unbind_eq w1 hinv1.1.2
  rw [h2] at e2
  injection e2 with e2
  have hp2 : w2.binder.dataListenerPair = ⟨none, none⟩ := by rw [e2]
  have hreg2 : binderRegistrations w2 = [] := by
    rw [hinv2.2.1, hp2]; rfl
  have hfire := fire_record o w2 hinv2
  rw [hp2] at hfire
  refine ⟨w1, w2, _, h1, h2, hp2, ?_, hreg2, hfire, ?_, ?_⟩
  · intro l hl hmem
    have : (o, l) ∈ binderRegistrations w2 := List.mem_filter.mpr ⟨hmem, hl⟩
    rw [hreg2] at this
    cases this
  · simp [pairRegistrations, notifyAllEvents]
  · simp [pairRegistrations, notifyAllEvents]

/-- Witness of C4: the binder state after `SetCallback(7)`, observable 1. -/
theorem bind_unbind_silent_witness :
    ∃ w, run [.SetCallback (some 7)] (fresh [(1, 5)]) = .ok w ∧
    ∃ w1 w2 w3, Bind (some 1) w = .ok w1 ∧ Unbind w1 = .ok w2 ∧
      w2.binder.dataListenerPair = ⟨none, none⟩ ∧
      (∀ l, l.isBound = true → (1, l) ∉ w2.registered) ∧
      binderRegistrations w2 = [] ∧
      fire recordCall 1 w2 = .ok w3 ∧
      w3.trace = w2.trace ∧
      reactionCalls w3.trace = reactionCalls w2.trace :=
  ⟨_, rfl, bind_unbind_silent [(1, 5)] [.SetCallback (some 7)] _ rfl 1⟩

/-- C5, `Unbind` is idempotent.  In a state where `dataListenerPairLock` is
free, as it is in every state reachable by calls made one after another: if
the active pair is empty, as on a fresh binder, `Unbind()` completes, makes no
`RemoveListener` call (its events are the lock, the store of the empty pair
and the unlock) and leaves the whole binder and every registration as they
were; and in any case `Unbind()` followed by `Unbind()` completes with the
same binder state and the same listeners on every observable as the first
`Unbind()` alone, the second one making no `RemoveListener` call. -/
theorem unbind_idempotent (w : World) (hw : w.binder.dataListenerPairLock = RWMutex.free) :
    (w.binder.dataListenerPair = ⟨none, none⟩ →
      Unbind w = .ok { w with
        trace := w.trace ++ [.lock .dataListenerPairLock, .storePair ⟨none, none⟩,
          .unlock .dataListenerPairLock] }) ∧
    ∃ w1 w2, Unbind w = .ok w1 ∧ Unbind w1 = .ok w2 ∧
      w2.binder = w1.binder ∧ w2.registered = w1.registered ∧
      (∀ o, listenersOf w2 o = listenersOf w1 o) ∧
      removeCalls (w2.trace.drop w1.trace.length) = [] := by
  constructor
  · intro hp
    rw [Unbind_eq w hw, hp]
    obtain ⟨⟨cl, cb, pl, p⟩, reg, n, tr⟩ := w
    simp only at hp
    subst hp
    simp [afterUnbind, unbindCalls]
  · refine ⟨_, _, Unbind_eq w hw, Unbind_eq _ hw, rfl, rfl, fun o => rfl, ?_⟩
    simp [unbindCalls, removeCalls]

/-- Witness of C5: the fresh binder, and the binder after `Bind(1)`. -/
theorem unbind_idempotent_witness :
    Unbind (fresh [(1, 5)]) = .ok { fresh [(1, 5)] with
        trace := [.lock .dataListenerPairLock, .storePair ⟨none, none⟩,
          .unlock .dataListenerPairLock] } ∧
    ∃ w, Bind (some 1) (fresh [(1, 5)]) = .ok w ∧
      w.binder.dataListenerPairLock = RWMutex.free ∧
      ∃ w1 w2, Unbind w = .ok w1 ∧ Unbind w1 = .ok w2 ∧
        w2.binder = w1.binder ∧ w2.registered = w1.registered ∧
        (∀ o, listenersOf w2 o = listenersOf w1 o) ∧
        removeCalls (w2.trace.drop w1.trace.length) = [] :=
  ⟨(unbind_idempotent (fresh [(1, 5)]) rfl).1 rfl,
    _, rfl, rfl, (unbind_idempotent _ rfl).2⟩

/-- Counterexample to C6 as stated: on a binder whose active pair is
observable 0 with listener `bound 0`, the calls that `Bind(1)` makes on
observables are `AddListener` on 1 first and `RemoveListener` on 0 second,
which is not the order deregister-then-register. -/
theorem bind_registers_first_counterexample :
    ∃ w1 w2, Bind (some 0) (fresh []) = .ok w1 ∧
      w1.binder.dataListenerPair = ⟨some 0, some (.bound 0 (some 0))⟩ ∧
      Bind (some 1) w1 = .ok w2 ∧
      observableCalls (w2.trace.drop w1.trace.length)
        = [.addListener 1 (.bound 1 (some 1)), .removeListener 0 (.bound 0 (some 0))] ∧
      observableCalls (w2.trace.drop w1.trace.length)
        ≠ [.removeListener 0 (.bound 0 (some 0)), .addListener 1 (.bound 1 (some 1))] :=
  ⟨_, _, rfl, rfl, rfl, rfl, by decide⟩

/-- C6 as amended, register-then-deregister order.  For every `Bind(o2)` call
on a binder whose active pair is `(o1, l1)` and whose pair lock is free, the
case `o2 = o1` included: the call completes, and the calls it makes on
observables are exactly `AddListener(l2)` on `o2` followed by
`RemoveListener(l1)` on `o1`, each once, where `l2` is the listener that this
`Bind` allocated and that the new active pair records. -/
theorem bind_registers_then_deregisters (w : World) (o1 o2 : ObsId) (l1 : Listener)
    (hp : w.binder.dataListenerPair = ⟨some o1, some l1⟩)
    (hw : w.binder.dataListenerPairLock = RWMutex.free) :
    ∃ w1, Bind (some o2) w = .ok w1 ∧
      observableCalls (w1.trace.drop w.trace.length)
        = [.addListener o2 (.bound w.nextListener (some o2)), .removeListener o1 l1] ∧
      w1.binder.dataListenerPair = ⟨some o2, some (.bound w.nextListener (some o2))⟩ := by
  refine ⟨_, Bind_eq o2 w hw, ?_, rfl⟩
  simp only [hp, unbindCalls, List.append_assoc, List.drop_left]
  rfl

/-- Witness of C6 as amended: rebinding the same observable 3. -/
theorem bind_registers_then_deregisters_witness :
    ∃ w, Bind (some 3) (fresh [(1, 5)]) = .ok w ∧
      w.binder.dataListenerPair = ⟨some 3, some (.bound 0 (some 3))⟩ ∧
      w.binder.dataListenerPairLock = RWMutex.free ∧
      ∃ w1, Bind (some 3) w = .ok w1 ∧
        observableCalls (w1.trace.drop w.trace.length)
          = [.addListener 3 (.bound w.nextListener (some 3)),
              .removeListener 3 (.bound 0 (some 3))] ∧
        w1.binder.dataListenerPair = ⟨some 3, some (.bound w.nextListener (some 3))⟩ :=
  ⟨_, rfl, rfl, rfl, bind_registers_then_deregisters _ 3 3 (.bound 0 (some 3)) rfl rfl⟩

/-- C7, callback and data are replaced independently.  In every state between
calls (no mutex held), for every function `f`, nil included, and every
observable `o`: `SetCallback(f)` completes, the stored callback is `f`
afterwards, `dataListenerPair` and every registration are as before, and the
call makes no `AddListener` or `RemoveListener` call; `Bind(o)` and `Unbind()`
complete and leave the stored callback as it was. -/
theorem callback_data_independent (w : World) (hw : LocksFree w) (f : Callback)
    (o : ObsId) :
    (∃ w1, SetCallback f w = .ok w1 ∧ w1.binder.callback = f ∧
      w1.binder.dataListenerPair = w.binder.dataListenerPair ∧
      w1.registered = w.registered ∧
      observableCalls (w1.trace.drop w.trace.length) = []) ∧
    (∃ w1, Bind (some o) w = .ok w1 ∧ w1.binder.callback = w.binder.callback) ∧
    (∃ w1, Unbind w = .ok w1 ∧ w1.binder.callback = w.binder.callback) := by
  refine ⟨⟨_, SetCallback_eq f w hw.1, rfl, rfl, rfl, ?_⟩, ⟨_, Bind_eq o w hw.2, rfl⟩,
    ⟨_, Unbind_eq w hw.2, rfl⟩⟩
  simp only [List.drop_left]
  rfl

/-- Witness of C7: the binder bound to observable 1, callback 7 stored. -/
theorem callback_data_independent_witness :
    ∃ w, run [.SetCallback (some 7), .Bind (some 1)] (fresh [(1, 5)]) = .ok w ∧
      LocksFree w ∧
      (∃ w1, SetCallback none w = .ok w1 ∧ w1.binder.callback = none ∧
        w1.binder.dataListenerPair = w.binder.dataListenerPair ∧
        w1.registered = w.registered ∧
        observableCalls (w1.trace.drop w.trace.length) = []) ∧
      (∃ w1, Bind (some 2) w = .ok w1 ∧ w1.binder.callback = w.binder.callback) ∧
      (∃ w1, Unbind w = .ok w1 ∧ w1.binder.callback = w.binder.callback) :=
  ⟨_, rfl, ⟨rfl, rfl⟩, callback_data_independent _ ⟨rfl, rfl⟩ none 2⟩

/-- Counterexample to C8 as stated: `Bind` of the nil `DataItem` on a fresh
binder does not complete; the call `data.AddListener` on the nil interface
panics. -/
theorem bind_nil_counterexample :
    Bind none (fresh []) = .error .nilDereference ∧
    ¬ ∃ w, Bind none (fresh []) = .ok w :=
  ⟨rfl, by rintro ⟨w, h⟩; cases h⟩

/-- C8 as amended, totality.  From every state that calls made one after
another on a fresh binder can reach: `SetCallback(f)` completes for every `f`,
the nil callback included, `Unbind()` completes, and `Bind(o)` completes for
every non-nil `DataItem` `o`; none panics, blocks or signals an error. -/
theorem operations_total (regs : List (ObsId × Nat)) (ops : List Op) (w : World)
    (hw : run ops (fresh regs) = .ok w) :
    (∀ f : Callback, ∃ w1, SetCallback f w = .ok w1) ∧
    (∀ o : ObsId, ∃ w1, Bind (some o) w = .ok w1) ∧
    (∃ w1, Unbind w = .ok w1) := by
  have hinv := Inv_reachable regs ops w hw
  exact ⟨fun f => ⟨_, SetCallback_eq f w hinv.1.1⟩, fun o => ⟨_, Bind_eq o w hinv.1.2⟩,
    ⟨_, Unbind_eq w hinv.1.2⟩⟩

/-- Witness of C8 as amended: the state after `Bind(1)`, `Unbind()`,
`Bind(2)`. -/
theorem operations_total_witness :
    ∃ w, run [.Bind (some 1), .Unbind, .Bind (some 2)] (fresh [(1, 5)]) = .ok w ∧
      (∀ f : Callback, ∃ w1, SetCallback f w = .ok w1) ∧
      (∀ o : ObsId, ∃ w1, Bind (some o) w = .ok w1) ∧
      (∃ w1, Unbind w = .ok w1) :=
  ⟨_, rfl, operations_total [(1, 5)] [.Bind (some 1), .Unbind, .Bind (some 2)] _ rfl⟩

/-- Counterexample to C9 as stated: in the event trace of `Bind(0)` on a
fresh binder the `AddListener` call is the first event, made before
`dataListenerPairLock` is acquired, so not every call on an observable is
made under the lock. -/
theorem bind_adds_before_lock_counterexample :
    ∃ w, Bind (some 0) (fresh []) = .ok w ∧
      w.trace = [.addListener 0 (.bound 0 (some 0)), .lock .dataListenerPairLock,
        .storePair ⟨none, none⟩, .storePair ⟨some 0, some (.bound 0 (some 0))⟩,
        .unlock .dataListenerPairLock] ∧
      callsUnderPairLock false w.trace = false :=
  ⟨_, rfl, rfl, rfl⟩

/-- C9 as amended, the lock discipline of `Bind`.  For every observable `o`
and every state whose pair lock is free, the event trace of the single call
`Bind(o)` is: `AddListener` on `o`, then the acquisition of
`dataListenerPairLock`, the store of the empty pair, the `RemoveListener` call
for the previous pair if there was one, the store of the new pair, and the
release of the lock.  So every `RemoveListener` call made by `Bind` occurs
between the acquisition and the release of `dataListenerPairLock`, and the one
`AddListener` call occurs before the acquisition, without the lock. -/
theorem bind_lock_discipline (w : World) (o : ObsId)
    (hw : w.binder.dataListenerPairLock = RWMutex.free) :
    ∃ w1, Bind (some o) w = .ok w1 ∧
      w1.trace.drop w.trace.length =
        [.addListener o (.bound w.nextListener (some o)), .lock .dataListenerPairLock,
          .storePair ⟨none, none⟩] ++ unbindCalls w.binder.dataListenerPair ++
        [.storePair ⟨some o, some (.bound w.nextListener (some o))⟩,
          .unlock .dataListenerPairLock] ∧
      removesUnderPairLock false (w1.trace.drop w.trace.length) = true ∧
      callsUnderPairLock false (w1.trace.drop w.trace.length) = false := by
  refine ⟨_, Bind_eq o w hw, ?_, ?_, ?_⟩
  · simp only [List.append_assoc, List.drop_left]
  · simp only [List.append_assoc, List.drop_left]
    obtain ⟨d, l⟩ := w.binder.dataListenerPair
    cases l <;> cases d <;> rfl
  · simp only [List.append_assoc, List.drop_left]
    rfl

/-- Witness of C9 as amended: rebinding from observable 1 to observable 2. -/
theorem bind_lock_discipline_witness :
    ∃ w, Bind (some 1) (fresh [(1, 5)]) = .ok w ∧
      w.binder.dataListenerPairLock = RWMutex.free ∧
      ∃ w1, Bind (some 2) w = .ok w1 ∧
        w1.trace.drop w.trace.length =
          [.addListener 2 (.bound w.nextListener (some 2)), .lock .dataListenerPairLock,
            .storePair ⟨none, none⟩] ++ unbindCalls w.binder.dataListenerPair ++
          [.storePair ⟨some 2, some (.bound w.nextListener (some 2))⟩,
            .unlock .dataListenerPairLock] ∧
        removesUnderPairLock false (w1.trace.drop w.trace.length) = true ∧
        callsUnderPairLock false (w1.trace.drop w.trace.length) = false :=
  ⟨_, rfl, rfl, bind_lock_discipline _ 2 rfl⟩

/-- C10, re-entrancy without deadlock.  Take a state `w` in which no mutex of
the binder is held, which is the state in which an observable fires, and
reactions that call `SetCallback`, `Bind` and `Unbind` on the same binder
(`body f` are the calls that reaction `f` makes).
(1) The listener closure takes and releases the read lock on `callbackLock`
and only then invokes the reaction, in a state where neither mutex is held.
(2) `unbindLocked` stores the empty pair before it calls `RemoveListener`,
and performs no lock operation, so it never takes `callbackLock`; nor does
`Unbind`, whose only lock operations are on `dataListenerPairLock`.
(3) Firing any observable never ends in a deadlock, and when no reaction
calls `Bind(nil)` the firing completes, again with no mutex held.
(4) The release matters: were a read lock on `callbackLock` still held,
`SetCallback` would block, and were `dataListenerPairLock` held, `Unbind` and
`Bind` would block. -/
theorem reentrant_firing_no_deadlock (body : CallbackId → List Op) (w : World)
    (hw : LocksFree w) (data : DataItem) (o : ObsId) :
    (∀ invoke : CallbackId → DataItem → World → Except Fault World,
      listenerClosure invoke data w =
        match w.binder.callback with
        | none => .ok { w with
            trace := w.trace ++ [.rlock .callbackLock, .runlock .callbackLock] }
        | some f => invoke f data { w with
            trace := w.trace ++ [.rlock .callbackLock, .runlock .callbackLock] }) ∧
    LocksFree { w with trace := w.trace ++ [.rlock .callbackLock, .runlock .callbackLock] } ∧
    unbindLocked w = .ok
      { w with
        binder := { w.binder with dataListenerPair := ⟨none, none⟩ }
        registered := afterUnbind w.binder.dataListenerPair w.registered
        trace := w.trace ++ .storePair ⟨none, none⟩ :: unbindCalls w.binder.dataListenerPair } ∧
    (∃ w1, Unbind w = .ok w1 ∧
      w1.trace = w.trace ++ [.lock .dataListenerPairLock, .storePair ⟨none, none⟩]
        ++ unbindCalls w.binder.dataListenerPair ++ [.unlock .dataListenerPairLock]) ∧
    fire (reentrantCall body) o w ≠ .error .deadlock ∧
    ((∀ f, NoNilBind (body f)) →
      ∃ w1, fire (reentrantCall body) o w = .ok w1 ∧ LocksFree w1) ∧
    (∀ (f : Callback) (w2 : World), 0 < w2.binder.callbackLock.readers →
      SetCallback f w2 = .error .deadlock) ∧
    (∀ (o2 : ObsId) (w2 : World), w2.binder.dataListenerPairLock.writer = true →
      Unbind w2 = .error .deadlock ∧ Bind (some o2) w2 = .error .deadlock) := by
  have hcw : w.binder.callbackLock.writer = false := by rw [hw.1]; rfl
  refine ⟨fun invoke => listenerClosure_eq invoke data w hcw, hw, unbindLocked_eq w,
    ⟨_, Unbind_eq w hw.2, rfl⟩, ?_, ?_, SetCallback_blocks_reader,
    fun o2 w2 h2 => ⟨Unbind_blocks_writer w2 h2, Bind_blocks_writer o2 w2 h2⟩⟩
  · intro hdead
    rcases notifyAll_reentrant body (listenersOf w o) w hw with ⟨w1, h1, _⟩ | herr
    · unfold fire at hdead
      rw [h1] at hdead
      cases hdead
    · unfold fire at hdead
      rw [herr] at hdead
      cases hdead
  · intro hbody
    exact notifyAll_reentrant_ok body hbody (listenersOf w o) w hw

/-- Witness of C10: callback 7 is stored and observable 1 is bound; reaction
7 calls `Unbind`, `SetCallback(nil)` and `Bind(2)` from within the firing. -/
theorem reentrant_firing_no_deadlock_witness :
    ∃ w, run [.SetCallback (some 7), .Bind (some 1)] (fresh [(1, 5)]) = .ok w ∧
      LocksFree w ∧
      NoNilBind [Op.Unbind, Op.SetCallback none, Op.Bind (some 2)] ∧
      fire (reentrantCall (fun _ => [Op.Unbind, Op.SetCallback none, Op.Bind (some 2)])) 1 w
        ≠ .error .deadlock ∧
      ∃ w1, fire (reentrantCall (fun _ => [Op.Unbind, Op.SetCallback none, Op.Bind (some 2)]))
          1 w = .ok w1 ∧ LocksFree w1 :=
  ⟨_, rfl, ⟨rfl, rfl⟩, by decide,
    (reentrant_firing_no_deadlock _ _ ⟨rfl, rfl⟩ none 1).2.2.2.2.1,
    (reentrant_firing_no_deadlock _ _ ⟨rfl, rfl⟩ none 1).2.2.2.2.2.1 (fun _ => by decide)⟩

end BindHelper

namespace MockRunner

/-! ## The assertions -/

theorem le_assertEqual {α : Type} [DecidableEq α] (t : Nat) (a b : α) :
    t ≤ assertEqual t a b := by
  unfold assertEqual
  split <;> omega

theorem assertEqual_eq_iff {α : Type} [DecidableEq α] (t : Nat) (a b : α) :
    assertEqual t a b = t ↔ a = b := by
  unfold assertEqual
  split <;> simp [*]

theorem assertLess_eq_iff (t : Nat) (e1 e2 : Int) : assertLess t e1 e2 = t ↔ e1 < e2 := by
  unfold assertLess
  split <;> simp [*]

theorem assertEachEqual_ok (expected : List String) (actual : List String) :
    ∀ (index t : Nat), index + actual.length = expected.length →
      ∃ t1, assertEachEqual expected index actual t = .ok t1 ∧ t ≤ t1 ∧
        (t1 = t ↔ expected.drop index = actual) := by
  induction actual with
  | nil =>
    intro index t h
    refine ⟨t, rfl, Nat.le_refl _, ?_⟩
    simp only [List.length_nil, Nat.add_zero] at h
    simp [h]
  | cons value rest ih =>
    intro index t h
    simp only [List.length_cons] at h
    have hlt : index < expected.length := by omega
    obtain ⟨t1, h1, hle, hiff⟩ := ih (index + 1) (assertEqual t expected[index] value)
      (by omega)
    refine ⟨t1, ?_, Nat.le_trans (le_assertEqual _ _ _) hle, ?_⟩
    · simp only [assertEachEqual, List.getElem?_eq_getElem hlt]
      exact h1
    · rw [List.drop_eq_getElem_cons hlt]
      have hmono := le_assertEqual t expected[index] value
      constructor
      · intro h2
        have h3 : assertEqual t expected[index] value = t := by omega
        have h4 : t1 = assertEqual t expected[index] value := by omega
        rw [(assertEqual_eq_iff _ _ _).mp h3, hiff.mp h4]
      · intro h2
        injection h2 with h3 h4
        have h5 := (assertEqual_eq_iff t expected[index] value).mpr h3
        have h6 := hiff.mpr h4
        omega

/-- The comparison `assert.Equal` on the lengths followed by the guarded
loop, as `runOutput` and `setEnv` perform it, on lists of any lengths. -/
theorem compare_ok (expected actual : List String) (t : Nat) :
    ∃ t1, (if expected.length = actual.length then assertEachEqual expected 0 actual
        (assertEqual t expected.length actual.length)
      else .ok (assertEqual t expected.length actual.length)) = Except.ok t1 ∧
      t ≤ t1 ∧ (t1 = t ↔ expected = actual) := by
  by_cases hlen : expected.length = actual.length
  · obtain ⟨t1, h1, hle, hiff⟩ := assertEachEqual_ok expected actual 0
      (assertEqual t expected.length actual.length) (by omega)
    have h0 := (assertEqual_eq_iff t expected.length actual.length).mpr hlen
    refine ⟨t1, by rw [if_pos hlen]; exact h1, by omega, ?_⟩
    rw [h0] at hiff
    simpa using hiff
  · refine ⟨_, by rw [if_neg hlen], le_assertEqual _ _ _, ?_⟩
    rw [assertEqual_eq_iff]
    constructor
    · intro h; exact absurd h hlen
    · intro h; exact absurd (congrArg List.length h) hlen

/-! ## The index expression -/

theorem callAt_of_valid (calls : List mockRunOutputValue) (index : Int)
    (h0 : 0 ≤ index) (h : index < calls.length) :
    ∃ call, callAt calls index = some call ∧ calls[index.toNat]? = some call := by
  have hlt : index.toNat < calls.length := by omega
  refine ⟨calls[index.toNat], ?_, List.getElem?_eq_getElem hlt⟩
  unfold callAt
  rw [if_pos h0, List.getElem?_eq_getElem hlt]

theorem valid_of_callAt (calls : List mockRunOutputValue) (index : Int)
    (call : mockRunOutputValue) (h : callAt calls index = some call) :
    0 ≤ index ∧ index < calls.length ∧ calls[index.toNat]? = some call := by
  unfold callAt at h
  split at h
  · rename_i h0
    have hlt : index.toNat < calls.length := by
      by_contra hge
      rw [List.getElem?_eq_none (by omega)] at h
      cases h
    exact ⟨h0, by omega, h⟩
  · cases h

theorem callAt_out_of_range (calls : List mockRunOutputValue) (index : Int)
    (h : index < 0 ∨ (calls.length : Int) ≤ index) : callAt calls index = none := by
  unfold callAt
  split
  · rename_i h0
    exact List.getElem?_eq_none (by omega)
  · rfl

theorem callAt_set_self (calls : List mockRunOutputValue) (index : Int)
    (call call1 : mockRunOutputValue) (h : callAt calls index = some call) :
    callAt (calls.set index.toNat call1) index = some call1 := by
  obtain ⟨h0, hlt, _⟩ := valid_of_callAt calls index call h
  unfold callAt
  rw [if_pos h0]
  exact List.getElem?_set_self (by omega)

theorem callAt_set_ne (calls : List mockRunOutputValue) (index j : Int)
    (call1 : mockRunOutputValue) (h0 : 0 ≤ index) (hj : j ≠ index) :
    callAt (calls.set index.toNat call1) j = callAt calls j := by
  unfold callAt
  split
  · rename_i hj0
    exact List.getElem?_set_ne (by omega)
  · rfl

/-! ## What each method does -/

theorem runOutput_eq (t : testCommandCall) (args : List String) (call : mockRunOutputValue)
    (h : callAt t.calls t.index = some call) :
    ∃ t3, runOutput t args
        = .ok ((call.ret, call.err), { t with t := t3, index := t.index + 1 }) ∧
      t.t ≤ t3 ∧ (t3 = t.t ↔ call.args = args) := by
  obtain ⟨_, hlt, _⟩ := valid_of_callAt t.calls t.index call h
  have hless : assertLess t.t t.index t.calls.length = t.t := (assertLess_eq_iff _ _ _).mpr hlt
  obtain ⟨t3, hc, hle, hiff⟩ := compare_ok call.args args t.t
  refine ⟨t3, ?_, hle, hiff⟩
  simp only [runOutput, h, hless]
  rw [hc]

theorem runOutput_panics (t : testCommandCall) (args : List String)
    (h : t.index < 0 ∨ (t.calls.length : Int) ≤ t.index) :
    runOutput t args = .error .indexOutOfRange := by
  simp only [runOutput, callAt_out_of_range t.calls t.index h]

theorem setDir_eq (t : testCommandCall) (dir s : String) (call : mockRunOutputValue)
    (h : callAt t.calls t.index = some call) (hd : call.dir = .str s) :
    setDir t dir = .ok { t with
      t := assertEqual t.t s dir
      calls := t.calls.set t.index.toNat { call with dirSet := true } } := by
  obtain ⟨_, hlt, _⟩ := valid_of_callAt t.calls t.index call h
  have hless : assertLess t.t t.index t.calls.length = t.t := (assertLess_eq_iff _ _ _).mpr hlt
  simp only [setDir, h, hd, hless]

theorem setDir_panics_index (t : testCommandCall) (dir : String)
    (h : t.index < 0 ∨ (t.calls.length : Int) ≤ t.index) :
    setDir t dir = .error .indexOutOfRange := by
  simp only [setDir, callAt_out_of_range t.calls t.index h]

theorem setDir_panics_type (t : testCommandCall) (dir : String) (call : mockRunOutputValue)
    (h : callAt t.calls t.index = some call) (hd : ∀ s, call.dir ≠ .str s) :
    setDir t dir = .error .typeAssertion := by
  cases hdir : call.dir with
  | nil => simp only [setDir, h, hdir]
  | other tag => simp only [setDir, h, hdir]
  | str s => exact absurd hdir (hd s)

theorem setEnv_eq (environ : List String) (t : testCommandCall) (env : List String)
    (call : mockRunOutputValue) (h : callAt t.calls t.index = some call) :
    ∃ t3, setEnv environ t env = .ok { t with
        t := t3
        calls := t.calls.set t.index.toNat
          { call with env := storedEnvOf environ call, envSet := true } } ∧
      t.t ≤ t3 ∧ (t3 = t.t ↔ sortStrings (expectedEnvOf environ call) = sortStrings env) := by
  obtain ⟨_, hlt, _⟩ := valid_of_callAt t.calls t.index call h
  have hless : assertLess t.t t.index t.calls.length = t.t := (assertLess_eq_iff _ _ _).mpr hlt
  obtain ⟨t3, hc, hle, hiff⟩ :=
    compare_ok (sortStrings (expectedEnvOf environ call)) (sortStrings env) t.t
  refine ⟨t3, ?_, hle, hiff⟩
  simp only [setEnv, h, hless]
  unfold expectedEnvOf at hc
  rw [hc]
  rfl

theorem setEnv_panics (environ : List String) (t : testCommandCall) (env : List String)
    (h : t.index < 0 ∨ (t.calls.length : Int) ≤ t.index) :
    setEnv environ t env = .error .indexOutOfRange := by
  simp only [setEnv, callAt_out_of_range t.calls t.index h]

theorem sortStrings_eq_iff_perm (a b : List String) :
    sortStrings a = sortStrings b ↔ a.Perm b := by
  unfold sortStrings
  constructor
  · intro h
    have ha := List.perm_insertionSort (fun x y : String => x ≤ y) a
    have hb := List.perm_insertionSort (fun x y : String => x ≤ y) b
    rw [h] at ha
    exact ha.symm.trans hb
  · intro h
    apply List.eq_of_perm_of_sorted (r := fun x y : String => x ≤ y)
    · exact ((List.perm_insertionSort _ a).trans h).trans (List.perm_insertionSort _ b).symm
    · exact List.sorted_insertionSort _ a
    · exact List.sorted_insertionSort _ b

theorem storedEnvOf_length (environ : List String) (call : mockRunOutputValue) :
    (storedEnvOf environ call).elems.length = call.env.elems.length ∧
    (storedEnvOf environ call).spare = call.env.spare := by
  refine ⟨?_, rfl⟩
  unfold storedEnvOf
  simp only
  split
  · rw [List.length_take]
    unfold sortStrings expectedEnvOf
    rw [List.length_insertionSort]
    split
    · rw [List.length_append]; omega
    · omega
  · rfl

/-- With room in the backing array the process environment is appended in
place and the sort moves it into the stored slice. -/
theorem storedEnvOf_spare :
    storedEnvOf ["M=0"]
      { dir := .nil, env := ⟨["Z=1", "Y=2"], 6⟩, osEnv := true, args := [],
        ret := [], err := none, dirSet := false, envSet := false }
      = ⟨["M=0", "Y=2"], 6⟩ := by
  simp [storedEnvOf, expectedEnvOf, sortStrings, List.insertionSort, List.orderedInsert]
  decide

theorem replay_eq (argss : List (List String)) :
    ∀ t : testCommandCall, 0 ≤ t.index → t.index + argss.length ≤ t.calls.length →
      ∃ rs t1, replay t argss = .ok (rs, t1) ∧ t1.index = t.index + argss.length ∧
        t1.calls = t.calls ∧
        rs = ((t.calls.drop t.index.toNat).take argss.length).map
          (fun c => (c.ret, c.err)) := by
  induction argss with
  | nil =>
    intro t _ _
    exact ⟨[], t, rfl, by simp, rfl, by simp⟩
  | cons args rest ih =>
    intro t h0 h
    simp only [List.length_cons, Nat.cast_add, Nat.cast_one] at h
    have hlt : t.index.toNat < t.calls.length := by omega
    obtain ⟨call, hcall, hget⟩ := callAt_of_valid t.calls t.index h0 (by omega)
    have hcall2 : call = t.calls[t.index.toNat] := by
      rw [List.getElem?_eq_getElem hlt] at hget
      exact (Option.some.inj hget).symm
    obtain ⟨t3, hrun, _, _⟩ := runOutput_eq t args call hcall
    obtain ⟨rs, t1, hrep, hidx, hcalls, hrs⟩ :=
      ih { t with t := t3, index := t.index + 1 } (by simp only; omega) (by simp only; omega)
    refine ⟨(call.ret, call.err) :: rs, t1, ?_, ?_, hcalls, ?_⟩
    · simp only [replay, hrun, hrep]
    · simp only at hidx
      simp only [List.length_cons, Nat.cast_add, Nat.cast_one]
      omega
    · rw [hrs]
      simp only
      have hnext : (t.index + 1).toNat = t.index.toNat + 1 := by omega
      rw [hnext, List.drop_eq_getElem_cons hlt, List.length_cons, List.take_succ_cons,
        List.map_cons, hcall2]

theorem le_verifyCall (t : Nat) (value : mockRunOutputValue) : t ≤ verifyCall t value := by
  unfold verifyCall
  have h1 := le_assertEqual t true value.dirSet
  split <;> split <;>
    first
    | exact Nat.le_refl _
    | exact h1
    | exact le_assertEqual _ _ _
    | exact Nat.le_trans h1 (le_assertEqual _ _ _)

theorem verifyCall_eq_iff (t : Nat) (value : mockRunOutputValue) :
    verifyCall t value = t ↔
      (value.dir ≠ Dir.nil → value.dirSet = true) ∧
      (value.env.elems ≠ [] → value.envSet = true) := by
  have hlen : value.env.elems.length > 0 ↔ value.env.elems ≠ [] := by
    rw [gt_iff_lt, List.length_pos]
  unfold verifyCall
  by_cases hd : value.dir ≠ Dir.nil <;> by_cases he : value.env.elems.length > 0
  · simp only [hd, he, if_true, ne_eq, not_false_eq_true, true_implies, hlen.mp he]
    have h1 := le_assertEqual t true value.dirSet
    have h2 := le_assertEqual (assertEqual t true value.dirSet) true value.envSet
    constructor
    · intro h
      have h3 : assertEqual t true value.dirSet = t := by omega
      have h4 : assertEqual (assertEqual t true value.dirSet) true value.envSet
          = assertEqual t true value.dirSet := by omega
      exact ⟨((assertEqual_eq_iff _ _ _).mp h3).symm, ((assertEqual_eq_iff _ _ _).mp h4).symm⟩
    · rintro ⟨h3, h4⟩
      rw [(assertEqual_eq_iff _ true value.envSet).mpr h4.symm,
        (assertEqual_eq_iff _ true value.dirSet).mpr h3.symm]
  · have he2 : ¬ value.env.elems ≠ [] := fun h => he (hlen.mpr h)
    simp only [hd, he, he2, if_true, if_false, ne_eq, not_false_eq_true, true_implies,
      false_implies, and_true, assertEqual_eq_iff]
    exact eq_comm
  · simp only [hd, he, if_true, if_false, ne_eq, not_false_eq_true, true_implies,
      false_implies, true_and, hlen.mp he, assertEqual_eq_iff]
    exact eq_comm
  · have he2 : ¬ value.env.elems ≠ [] := fun h => he (hlen.mpr h)
    simp only [hd, he, he2, if_false, false_implies, and_self]

theorem le_foldl_verifyCall (calls : List mockRunOutputValue) :
    ∀ t : Nat, t ≤ calls.foldl verifyCall t := by
  induction calls with
  | nil => intro t; exact Nat.le_refl _
  | cons c cs ih =>
    intro t
    exact Nat.le_trans (le_verifyCall t c) (ih _)

theorem foldl_verifyCall_eq_iff (calls : List mockRunOutputValue) :
    ∀ t : Nat, calls.foldl verifyCall t = t ↔
      ∀ c ∈ calls, (c.dir ≠ Dir.nil → c.dirSet = true) ∧
        (c.env.elems ≠ [] → c.envSet = true) := by
  induction calls with
  | nil => intro t; simp
  | cons c cs ih =>
    intro t
    have h1 := le_verifyCall t c
    have h2 := le_foldl_verifyCall cs (verifyCall t c)
    simp only [List.foldl_cons, List.mem_cons, forall_eq_or_imp]
    rw [← verifyCall_eq_iff t c, ← ih (verifyCall t c)]
    constructor
    · intro h
      have h3 : verifyCall t c = t := by omega
      exact ⟨h3, by omega⟩
    · rintro ⟨h3, h4⟩
      omega

theorem map_set_frame {β : Type} (f : mockRunOutputValue → β)
    (calls : List mockRunOutputValue) (i : Nat) (call call1 : mockRunOutputValue)
    (h : calls[i]? = some call) (hf : f call1 = f call) :
    (calls.set i call1).map f = calls.map f := by
  apply List.ext_getElem?
  intro j
  simp only [List.getElem?_map, List.getElem?_set]
  by_cases hij : i = j
  · subst hij
    have hlt : i < calls.length := by
      by_contra hge
      rw [List.getElem?_eq_none (by omega)] at h
      cases h
    simp [hlt, h, hf]
  · simp [hij]

theorem runOutput_after_set (t : testCommandCall) (t3 : Nat) (call call1 : mockRunOutputValue)
    (args : List String) (h : callAt t.calls t.index = some call)
    (hret : call1.ret = call.ret) (herr : call1.err = call.err)
    (hargs : call1.args = call.args) :
    ∃ u1 u, runOutput { t with t := t3, calls := t.calls.set t.index.toNat call1 } args
        = .ok ((call.ret, call.err), u1) ∧
      runOutput t args = .ok ((call.ret, call.err), u) ∧
      (u1.t = t3 ↔ args = call.args) ∧ (u.t = t.t ↔ args = call.args) ∧
      u1.index = t.index + 1 ∧ u.index = t.index + 1 := by
  obtain ⟨a, hrun, _, hiff⟩ := runOutput_eq t args call h
  obtain ⟨b, hrun1, _, hiff1⟩ :=
    runOutput_eq { t with t := t3, calls := t.calls.set t.index.toNat call1 } args call1
      (callAt_set_self t.calls t.index call call1 h)
  rw [hret, herr] at hrun1
  rw [hargs] at hiff1
  refine ⟨_, _, hrun1, hrun, ?_, ?_, rfl, rfl⟩
  · rw [eq_comm (a := args)]; exact hiff1
  · rw [eq_comm (a := args)]; exact hiff

/-! ## The claims -/

/-- C11, `runOutput` checks the arguments.  For every `testCommandCall` with
`index < len(calls)` in which `calls[index]` is an expected call, that is
with `index` a position of `calls`, `0 <= index < len(calls)`, and for every
argument list `args`: `runOutput(args...)` returns, and it records no
assertion failure if and only if `args` equals `calls[index].args`; lists are
equal when they have the same length and the same string at every
position. -/
theorem runOutput_checks_args (t : testCommandCall) (args : List String)
    (h0 : 0 ≤ t.index) (h : t.index < t.calls.length) :
    ∃ call r t1, callAt t.calls t.index = some call ∧ runOutput t args = .ok (r, t1) ∧
      (t1.t = t.t ↔ args = call.args) := by
  obtain ⟨call, hcall, _⟩ := callAt_of_valid t.calls t.index h0 h
  obtain ⟨t3, hrun, _, hiff⟩ := runOutput_eq t args call hcall
  exact ⟨_, _, _, hcall, hrun, by rw [eq_comm (a := args)]; exact hiff⟩

/-- Witness of C11: the sample mock, called with `git status`. -/
theorem runOutput_checks_args_witness :
    0 ≤ sampleMock.index ∧ sampleMock.index < sampleMock.calls.length ∧
    ∃ call r t1, callAt sampleMock.calls sampleMock.index = some call ∧
      runOutput sampleMock ["git", "status"] = .ok (r, t1) ∧
      (t1.t = sampleMock.t ↔ ["git", "status"] = call.args) :=
  ⟨by decide, by decide,
    runOutput_checks_args sampleMock ["git", "status"] (by decide) (by decide)⟩

/-- C12, replay order.  Take a `testCommandCall` with `index = 0` and `n`
expected calls, and invoke `runOutput` `m` times, `m ≤ n`, with any
arguments.  All invocations return; the `k`-th of them (from 0) returns
exactly `(calls[k].ret, calls[k].err)`; afterwards `index = m` and `calls` is
as before, and the same holds after the first `j` invocations for every
`j ≤ m`, where `index = j`.  Each single invocation that returns increases
`index` by exactly one. -/
theorem replay_order (t : testCommandCall) (h0 : t.index = 0)
    (argss : List (List String)) (hn : argss.length ≤ t.calls.length) :
    (∃ rs t1, replay t argss = .ok (rs, t1) ∧ t1.index = argss.length ∧
      t1.calls = t.calls ∧
      rs = (t.calls.take argss.length).map (fun c => (c.ret, c.err)) ∧
      ∀ k, k < argss.length → rs[k]? = (t.calls[k]?).map (fun c => (c.ret, c.err))) ∧
    (∀ j, j ≤ argss.length →
      ∃ rs t1, replay t (argss.take j) = .ok (rs, t1) ∧ t1.index = j) ∧
    (∀ (u : testCommandCall) (args : List String) (r : List Nat × Option String)
      (u1 : testCommandCall), runOutput u args = .ok (r, u1) → u1.index = u.index + 1) := by
  refine ⟨?_, ?_, ?_⟩
  · obtain ⟨rs, t1, hrep, hidx, hcalls, hrs⟩ :=
      replay_eq argss t (by omega) (by rw [h0]; omega)
    rw [h0] at hidx hrs
    simp only [Int.toNat_zero, List.drop_zero, Int.zero_add] at hidx hrs
    refine ⟨rs, t1, hrep, hidx, hcalls, hrs, ?_⟩
    intro k hk
    rw [hrs, List.getElem?_map, List.getElem?_take_of_lt hk]
  · intro j hj
    have hlen : (argss.take j).length = j := by
      rw [List.length_take]; omega
    obtain ⟨rs, t1, hrep, hidx, _, _⟩ :=
      replay_eq (argss.take j) t (by omega) (by rw [h0, hlen]; omega)
    refine ⟨rs, t1, hrep, ?_⟩
    rw [hidx, h0, hlen]
    omega
  · intro u args r u1 hrun
    by_cases hv : 0 ≤ u.index ∧ u.index < u.calls.length
    · obtain ⟨call, hcall, _⟩ := callAt_of_valid u.calls u.index hv.1 hv.2
      obtain ⟨t3, hrun2, _, _⟩ := runOutput_eq u args call hcall
      rw [hrun2] at hrun
      injection hrun with hrun
      injection hrun with _ hu
      rw [← hu]
    · rw [runOutput_panics u args (by omega)] at hrun
      cases hrun

/-- Witness of C12: the sample mock, invoked twice with arguments that match
no expected call. -/
theorem replay_order_witness :
    sampleMock.index = 0 ∧ [["x"], []].length ≤ sampleMock.calls.length ∧
    ∃ rs t1, replay sampleMock [["x"], []] = .ok (rs, t1) ∧ t1.index = 2 ∧
      t1.calls = sampleMock.calls ∧
      rs = (sampleMock.calls.take 2).map (fun c => (c.ret, c.err)) ∧
      ∀ k, k < 2 → rs[k]? = (sampleMock.calls[k]?).map (fun c => (c.ret, c.err)) :=
  ⟨rfl, by decide, (replay_order sampleMock rfl [["x"], []] (by decide)).1⟩

/-- C13, `verifyExpectation`.  It records no assertion failure if and only
if `index` equals `len(calls)`, every expected call with a non-nil `dir` has
`dirSet = true`, and every expected call with a non-empty `env` has
`envSet = true`.  It changes neither `calls` nor `index`. -/
theorem verifyExpectation_no_failure_iff (t : testCommandCall) :
    ((verifyExpectation t).t = t.t ↔
      t.index = t.calls.length ∧
      ∀ c ∈ t.calls, (c.dir ≠ Dir.nil → c.dirSet = true) ∧
        (c.env.elems ≠ [] → c.envSet = true)) ∧
    (verifyExpectation t).calls = t.calls ∧ (verifyExpectation t).index = t.index := by
  refine ⟨?_, rfl, rfl⟩
  show t.calls.foldl verifyCall (assertEqual t.t (t.calls.length : Int) t.index) = t.t ↔ _
  have h1 := le_assertEqual t.t (t.calls.length : Int) t.index
  have h2 := le_foldl_verifyCall t.calls (assertEqual t.t (t.calls.length : Int) t.index)
  rw [← foldl_verifyCall_eq_iff t.calls (assertEqual t.t (t.calls.length : Int) t.index),
    eq_comm (a := t.index), ← assertEqual_eq_iff t.t (t.calls.length : Int) t.index]
  constructor
  · intro h
    have h3 : assertEqual t.t (t.calls.length : Int) t.index = t.t := by omega
    exact ⟨h3, by omega⟩
  · rintro ⟨h3, h4⟩
    omega

/-- C14, environment matching is order-insensitive.  For every
`testCommandCall` with `index < len(calls)` in which `calls[index]` is an
expected call, that is with `0 <= index < len(calls)`, every process
environment `os.Environ()` and every list `env`: `setEnv(env)` returns, and it
records no assertion failure if and only if `env` is a permutation of the
expected environment, which is `calls[index].env`, extended with
`os.Environ()` when `calls[index].osEnv` is true. -/
theorem setEnv_order_insensitive (environ : List String) (t : testCommandCall)
    (env : List String) (h0 : 0 ≤ t.index) (h : t.index < t.calls.length) :
    ∃ call t1, callAt t.calls t.index = some call ∧ setEnv environ t env = .ok t1 ∧
      (t1.t = t.t ↔
        env.Perm (if call.osEnv then call.env.elems ++ environ else call.env.elems)) := by
  obtain ⟨call, hcall, _⟩ := callAt_of_valid t.calls t.index h0 h
  obtain ⟨t3, hrun, _, hiff⟩ := setEnv_eq environ t env call hcall
  refine ⟨_, _, hcall, hrun, ?_⟩
  show t3 = t.t ↔ _
  rw [hiff, sortStrings_eq_iff_perm]
  exact ⟨fun hp => hp.symm, fun hp => hp.symm⟩

/-- Witness of C14: the sample mock, whose first expected call has the
environment `B=2`, `A=1`, is given `A=1`, `B=2`. -/
theorem setEnv_order_insensitive_witness :
    0 ≤ sampleMock.index ∧ sampleMock.index < sampleMock.calls.length ∧
    ∃ call t1, callAt sampleMock.calls sampleMock.index = some call ∧
      setEnv ["HOME=/root"] sampleMock ["A=1", "B=2"] = .ok t1 ∧
      (t1.t = sampleMock.t ↔
        List.Perm ["A=1", "B=2"]
          (if call.osEnv then call.env.elems ++ ["HOME=/root"] else call.env.elems)) :=
  ⟨by decide, by decide,
    setEnv_order_insensitive ["HOME=/root"] sampleMock ["A=1", "B=2"] (by decide) (by decide)⟩

/-- Counterexample to C15 as stated: the sample mock with `index = -1`
satisfies `index < len(calls)`, `assert.Less` passes, and the index
expression `calls[index]` panics in `runOutput`, in `setEnv` and in
`setDir`. -/
theorem negative_index_counterexample :
    negativeMock.index < negativeMock.calls.length ∧
    runOutput negativeMock ["git", "status"] = .error .indexOutOfRange ∧
    setEnv [] negativeMock ["A=1", "B=2"] = .error .indexOutOfRange ∧
    setDir negativeMock "/src" = .error .indexOutOfRange :=
  ⟨by decide, rfl, rfl, rfl⟩

/-- C15 as amended, no panic within range.  Under the precondition
`0 <= index < len(calls)`, `runOutput` and `setEnv` return for all arguments,
so they neither index `calls` out of range nor panic, and `setDir` returns
provided `calls[index].dir` holds a string.  Conversely a panic of
`runOutput` or `setEnv` is an index out of range with `index < 0` or
`index >= len(calls)`, and a panic of `setDir` is either that or a failed type
assertion on a `dir` that is nil or not a string.  Both are reached when the
precondition is violated: with `index < 0` or `index >= len(calls)` all three
panic, and with a `dir` that holds no string `setDir` panics. -/
theorem no_panic_within_range (environ : List String) (t : testCommandCall) :
    (0 ≤ t.index → t.index < t.calls.length →
      (∀ args, ∃ r, runOutput t args = .ok r) ∧
      (∀ env, ∃ t1, setEnv environ t env = .ok t1) ∧
      (∀ dir call s, callAt t.calls t.index = some call → call.dir = .str s →
        ∃ t1, setDir t dir = .ok t1)) ∧
    (∀ args p, runOutput t args = .error p →
      p = .indexOutOfRange ∧ (t.index < 0 ∨ (t.calls.length : Int) ≤ t.index)) ∧
    (∀ env p, setEnv environ t env = .error p →
      p = .indexOutOfRange ∧ (t.index < 0 ∨ (t.calls.length : Int) ≤ t.index)) ∧
    (∀ dir p, setDir t dir = .error p →
      (p = .indexOutOfRange ∧ (t.index < 0 ∨ (t.calls.length : Int) ≤ t.index)) ∨
      (p = .typeAssertion ∧
        ∃ call, callAt t.calls t.index = some call ∧ ∀ s, call.dir ≠ .str s)) ∧
    ((t.index < 0 ∨ (t.calls.length : Int) ≤ t.index) →
      (∀ args, runOutput t args = .error .indexOutOfRange) ∧
      (∀ env, setEnv environ t env = .error .indexOutOfRange) ∧
      (∀ dir, setDir t dir = .error .indexOutOfRange)) ∧
    (∀ call, callAt t.calls t.index = some call → (∀ s, call.dir ≠ .str s) →
      ∀ dir, setDir t dir = .error .typeAssertion) := by
  refine ⟨?_, ?_, ?_, ?_, ?_, ?_⟩
  · intro h0 h
    obtain ⟨call, hcall, _⟩ := callAt_of_valid t.calls t.index h0 h
    refine ⟨?_, ?_, ?_⟩
    · intro args
      obtain ⟨t3, hrun, _⟩ := runOutput_eq t args call hcall
      exact ⟨_, hrun⟩
    · intro env
      obtain ⟨t3, hrun, _⟩ := setEnv_eq environ t env call hcall
      exact ⟨_, hrun⟩
    · intro dir call1 s hc hd
      exact ⟨_, setDir_eq t dir s call1 hc hd⟩
  · intro args p hp
    by_cases hv : 0 ≤ t.index ∧ t.index < t.calls.length
    · obtain ⟨call, hcall, _⟩ := callAt_of_valid t.calls t.index hv.1 hv.2
      obtain ⟨t3, hrun, _⟩ := runOutput_eq t args call hcall
      rw [hrun] at hp
      cases hp
    · have hout : t.index < 0 ∨ (t.calls.length : Int) ≤ t.index := by omega
      rw [runOutput_panics t args hout] at hp
      injection hp with hp
      exact ⟨hp.symm, hout⟩
  · intro env p hp
    by_cases hv : 0 ≤ t.index ∧ t.index < t.calls.length
    · obtain ⟨call, hcall, _⟩ := callAt_of_valid t.calls t.index hv.1 hv.2
      obtain ⟨t3, hrun, _⟩ := setEnv_eq environ t env call hcall
      rw [hrun] at hp
      cases hp
    · have hout : t.index < 0 ∨ (t.calls.length : Int) ≤ t.index := by omega
      rw [setEnv_panics environ t env hout] at hp
      injection hp with hp
      exact ⟨hp.symm, hout⟩
  · intro dir p hp
    by_cases hv : 0 ≤ t.index ∧ t.index < t.calls.length
    · obtain ⟨call, hcall, _⟩ := callAt_of_valid t.calls t.index hv.1 hv.2
      by_cases hd : ∃ s, call.dir = .str s
      · obtain ⟨s, hs⟩ := hd
        rw [setDir_eq t dir s call hcall hs] at hp
        cases hp
      · have hd2 : ∀ s, call.dir ≠ .str s := fun s hs => hd ⟨s, hs⟩
        rw [setDir_panics_type t dir call hcall hd2] at hp
        injection hp with hp
        exact Or.inr ⟨hp.symm, call, hcall, hd2⟩
    · have hout : t.index < 0 ∨ (t.calls.length : Int) ≤ t.index := by omega
      rw [setDir_panics_index t dir hout] at hp
      injection hp with hp
      exact Or.inl ⟨hp.symm, hout⟩
  · intro h
    exact ⟨fun args => runOutput_panics t args h, fun env => setEnv_panics environ t env h,
      fun dir => setDir_panics_index t dir h⟩
  · intro call hc hd dir
    exact setDir_panics_type t dir call hc hd

/-- Witness of C15 as amended: the sample mock is within range and its first
expected call holds the directory `/src`. -/
theorem no_panic_within_range_witness :
    0 ≤ sampleMock.index ∧ sampleMock.index < sampleMock.calls.length ∧
    (∀ args, ∃ r, runOutput sampleMock args = .ok r) ∧
    (∀ env, ∃ t1, setEnv [] sampleMock env = .ok t1) ∧
    (∀ dir call s, callAt sampleMock.calls sampleMock.index = some call →
      call.dir = .str s → ∃ t1, setDir sampleMock dir = .ok t1) :=
  ⟨by decide, by decide, (no_panic_within_range [] sampleMock).1 (by decide) (by decide)⟩

/-- C16, `setDir` and `setEnv` do not consume an expected call.  For every
`testCommandCall` with `index < len(calls)` in which `calls[index]` is an
expected call `call`, that is with `0 <= index < len(calls)`:
`setDir`, when `call.dir` holds a string, returns, leaves `index` as it is and
changes `calls` only by setting `dirSet` of `calls[index]` to true;
`setEnv` returns, leaves `index` as it is and changes `calls` only at
`calls[index]`, where it sets `envSet` to true and leaves everything else but
the content of `env`, which keeps its length and capacity (the in-place sort
may reorder it, and an append in place may bring strings of the process
environment into it).  So after either of them every `ret`, `err` and `args`
and every entry other than `calls[index]` are as before, and a following
`runOutput` returns the values of the same expected call,
`(call.ret, call.err)`, records no failure exactly when its arguments are
`call.args`, and moves `index` to `index + 1`, just as `runOutput` on the
state before does. -/
theorem setDir_setEnv_frame (environ : List String) (t : testCommandCall)
    (h0 : 0 ≤ t.index) (h : t.index < t.calls.length) :
    ∃ call, callAt t.calls t.index = some call ∧
      (∀ dir s, call.dir = .str s →
        ∃ t1, setDir t dir = .ok t1 ∧ t1.index = t.index ∧
          t1.calls = t.calls.set t.index.toNat { call with dirSet := true } ∧
          t1.calls.map (fun c => (c.ret, c.err, c.args))
            = t.calls.map (fun c => (c.ret, c.err, c.args)) ∧
          (∀ j, j ≠ t.index → callAt t1.calls j = callAt t.calls j) ∧
          ∀ args, ∃ u1 u, runOutput t1 args = .ok ((call.ret, call.err), u1) ∧
            runOutput t args = .ok ((call.ret, call.err), u) ∧
            (u1.t = t1.t ↔ args = call.args) ∧ (u.t = t.t ↔ args = call.args) ∧
            u1.index = t.index + 1 ∧ u.index = t.index + 1) ∧
      (∀ env,
        ∃ t1 env1, setEnv environ t env = .ok t1 ∧ t1.index = t.index ∧
          t1.calls = t.calls.set t.index.toNat { call with env := env1, envSet := true } ∧
          env1 = storedEnvOf environ call ∧
          env1.elems.length = call.env.elems.length ∧ env1.spare = call.env.spare ∧
          t1.calls.map (fun c => (c.ret, c.err, c.args))
            = t.calls.map (fun c => (c.ret, c.err, c.args)) ∧
          (∀ j, j ≠ t.index → callAt t1.calls j = callAt t.calls j) ∧
          ∀ args, ∃ u1 u, runOutput t1 args = .ok ((call.ret, call.err), u1) ∧
            runOutput t args = .ok ((call.ret, call.err), u) ∧
            (u1.t = t1.t ↔ args = call.args) ∧ (u.t = t.t ↔ args = call.args) ∧
            u1.index = t.index + 1 ∧ u.index = t.index + 1) := by
  obtain ⟨call, hcall, hget⟩ := callAt_of_valid t.calls t.index h0 h
  refine ⟨call, hcall, ?_, ?_⟩
  · intro dir s hd
    refine ⟨_, setDir_eq t dir s call hcall hd, rfl, rfl, ?_, ?_, ?_⟩
    · exact map_set_frame _ t.calls t.index.toNat _ _ hget rfl
    · intro j hj
      exact callAt_set_ne t.calls t.index j _ h0 hj
    · intro args
      exact runOutput_after_set t _ _ _ args hcall rfl rfl rfl
  · intro env
    obtain ⟨t3, hrun, _⟩ := setEnv_eq environ t env call hcall
    refine ⟨_, _, hrun, rfl, rfl, rfl, (storedEnvOf_length environ call).1,
      (storedEnvOf_length environ call).2, ?_, ?_, ?_⟩
    · exact map_set_frame _ t.calls t.index.toNat _ _ hget rfl
    · intro j hj
      exact callAt_set_ne t.calls t.index j _ h0 hj
    · intro args
      exact runOutput_after_set t _ _ _ args hcall rfl rfl rfl

/-- Witness of C16: the mock whose stored environment `Z=1`, `Y=2` has spare
capacity, with the process environment `M=0`.  There `setEnv` leaves `M=0`,
`Y=2` stored (`storedEnvOf_spare`), and the frame holds all the same. -/
theorem setDir_setEnv_frame_witness :
    0 ≤ spareMock.index ∧ spareMock.index < spareMock.calls.length ∧
    ∃ call, callAt spareMock.calls spareMock.index = some call ∧
      ∀ env,
        ∃ t1 env1, setEnv ["M=0"] spareMock env = .ok t1 ∧ t1.index = spareMock.index ∧
          t1.calls = spareMock.calls.set spareMock.index.toNat
            { call with env := env1, envSet := true } ∧
          env1 = storedEnvOf ["M=0"] call ∧
          env1.elems.length = call.env.elems.length ∧ env1.spare = call.env.spare ∧
          t1.calls.map (fun c => (c.ret, c.err, c.args))
            = spareMock.calls.map (fun c => (c.ret, c.err, c.args)) ∧
          (∀ j, j ≠ spareMock.index → callAt t1.calls j = callAt spareMock.calls j) ∧
          ∀ args, ∃ u1 u, runOutput t1 args = .ok ((call.ret, call.err), u1) ∧
            runOutput spareMock args = .ok ((call.ret, call.err), u) ∧
            (u1.t = t1.t ↔ args = call.args) ∧ (u.t = spareMock.t ↔ args = call.args) ∧
            u1.index = spareMock.index + 1 ∧ u.index = spareMock.index + 1 :=
  ⟨by decide, by decide,
    (setDir_setEnv_frame ["M=0"] spareMock (by decide) (by decide)).imp
      (fun _ hc => ⟨hc.1, hc.2.2⟩)⟩

end MockRunner
